import Mathlib

/-!
# Base58 versioned payload containers (`src/src/base58.h`)

A shallow embedding of `CBase58Data` and of the typed codecs built on top of it
(`CBitcoinAddress`, ...).  Byte vectors (`std::vector<unsigned char>`) are lists of
bytes, the mutable object is an explicit state value, and the collaborators whose
code is not part of `base58.h` (the chain parameter registry, the checked base58
codec, the extended key serialisation of `extkey.h`) are explicit parameters.
-/

namespace Base58

/-! ## Bytes and raw memory helpers -/

/-- One `unsigned char`. -/
abbrev Byte := Fin 256

/-- The call `v.resize(n)` of `std::vector<unsigned char>`: keeps the first `n` elements,
pads with zero bytes when the vector grows. -/
def resize (v : List Byte) (n : Nat) : List Byte :=
  v.take n ++ List.replicate (n - v.length) 0

/-- The call `memcpy(&dst[0], src, n)`: the first `n` bytes of `dst` are overwritten by the
first `n` bytes found at `src`. -/
def memcpy (dst src : List Byte) (n : Nat) : List Byte :=
  src.take n ++ dst.drop n

/-- The test `0 == memcmp(a, b, n)`: the first `n` bytes at `a` and at `b` agree. -/
def memcmpEq (a b : List Byte) (n : Nat) : Bool :=
  a.take n == b.take n

/-- The call `OPENSSL_cleanse(&buf[0], n)`: the first `n` bytes of `buf` are set to zero, the
rest of the buffer is left as it is. -/
def OPENSSL_cleanse : List Byte → Nat → List Byte
  | [], _ => []
  | b :: bs, 0 => b :: bs
  | _ :: bs, n + 1 => 0 :: OPENSSL_cleanse bs n

/-! ## Collaborators that are not defined in `base58.h` -/

/-- Modelled from the spec: the constant `BIP32_KEY_N_BYTES` of `extkey.h` (not under `src/`),
the fixed width (74 bytes) of a serialised extended key. -/
def BIP32_KEY_N_BYTES : Nat := 74

/-- The kinds `CChainParams::Base58Type`: the seven that `base58.h` names, and `OTHER i` for
any further kind of `chainparams.h`, which a caller can pass to `Set(id, prefix)`. -/
inductive Base58Type
  | PUBKEY_ADDRESS
  | SCRIPT_ADDRESS
  | SECRET_KEY
  | EXT_PUBLIC_KEY
  | EXT_SECRET_KEY
  | EXT_PUBLIC_KEY_BTC
  | EXT_SECRET_KEY_BTC
  | OTHER (i : Nat)
  deriving DecidableEq, Repr

/-- The network profile `Params()`: the registry of version prefixes. -/
structure CChainParams where
  base58Prefixes : Base58Type → List Byte

/-- The accessor `Params().Base58Prefix(type)`. -/
def CChainParams.Base58Prefix (P : CChainParams) (type : Base58Type) : List Byte :=
  P.base58Prefixes type

/-- The type of `EncodeBase58Check`, declared in `base58.h` and implemented elsewhere. -/
abbrev Encoder := List Byte → List Char

/-- The type of `DecodeBase58Check`, declared in `base58.h` and implemented elsewhere:
`DecodeBase58Check psz` gives the returned flag and the content of `vchRet` after the call. -/
abbrev Decoder := List Char → Bool × List Byte

/-- The serialisation interface of `CExtKeyPair` (`extkey.h`): `EncodeV` and `EncodeP` write a
74-byte secret, respectively public, form; `DecodeV` and `DecodeP` read one back. -/
structure ExtKeyCodec (K : Type) where
  EncodeV : K → List Byte
  EncodeP : K → List Byte
  DecodeV : List Byte → K
  DecodeP : List Byte → K
  EncodeV_length : ∀ k, (EncodeV k).length = 74
  EncodeP_length : ∀ k, (EncodeP k).length = 74

/-! ## `CBase58Data` -/

/-- The class `CBase58Data`: the version byte(s) and the encoded data. -/
structure CBase58Data where
  vchVersion : List Byte
  vchData : List Byte
  deriving DecidableEq, Repr

namespace CBase58Data

/-- The constructor `CBase58Data()`. -/
def init : CBase58Data :=
  { vchVersion := [], vchData := [] }

/-- The method `SetData(vchVersionIn, pdata, nSize)`. -/
def SetData (self : CBase58Data) (vchVersionIn : List Byte) (pdata : List Byte) (nSize : Nat) :
    CBase58Data :=
  let vchData := resize self.vchData nSize
  { vchVersion := vchVersionIn
    vchData := if vchData.isEmpty then vchData else memcpy vchData pdata nSize }

/-- What a call of `SetString` leaves behind: the returned flag, the object, and the final
content of the local buffer `vchTemp`. -/
structure SetStringResult where
  ret : Bool
  self : CBase58Data
  vchTemp : List Byte
  deriving DecidableEq, Repr

/-- The secret extended key branch of `SetString` (lines 124-133). -/
def SetStringSecret {K : Type} (P : CChainParams) (X : ExtKeyCodec K) (self : CBase58Data)
    (vchTemp : List Byte) : SetStringResult :=
  let vchVersion := P.Base58Prefix .EXT_PUBLIC_KEY
  let ekp := X.DecodeV ((vchTemp.drop 4).take 74)
  let vchData := memcpy (resize self.vchData 74) (X.EncodeP ekp) 74
  { ret := true
    self := { vchVersion := vchVersion, vchData := vchData }
    vchTemp := OPENSSL_cleanse vchTemp vchData.length }

/-- The part of `SetString` after the extended key test (lines 137-149). -/
def SetStringSplit (self : CBase58Data) (vchTemp : List Byte) (nVersionBytes : Nat) :
    SetStringResult :=
  if vchTemp.length < nVersionBytes then
    { ret := false, self := { vchVersion := [], vchData := [] }, vchTemp := vchTemp }
  else
    let vchVersion := vchTemp.take nVersionBytes
    let vchData := resize self.vchData (vchTemp.length - nVersionBytes)
    let vchData :=
      if vchData.isEmpty then vchData
      else memcpy vchData (vchTemp.drop nVersionBytes) vchData.length
    { ret := true
      self := { vchVersion := vchVersion, vchData := vchData }
      vchTemp := OPENSSL_cleanse vchTemp vchData.length }

/-- The method `SetString(psz, nVersionBytes)`. -/
def SetString {K : Type} (P : CChainParams) (DecodeBase58Check : Decoder) (X : ExtKeyCodec K)
    (self : CBase58Data) (psz : List Char) (nVersionBytes : Nat) : SetStringResult :=
  let vchTemp := (DecodeBase58Check psz).2
  if vchTemp.length = BIP32_KEY_N_BYTES + 4 then
    if memcmpEq vchTemp (P.Base58Prefix .EXT_PUBLIC_KEY) 4 then
      SetStringSplit self vchTemp 4
    else if memcmpEq vchTemp (P.Base58Prefix .EXT_SECRET_KEY) 4 then
      SetStringSecret P X self vchTemp
    else
      SetStringSplit self vchTemp nVersionBytes
  else
    SetStringSplit self vchTemp nVersionBytes

/-- The overload `SetString(const std::string&)`, which uses the default `nVersionBytes = 1`. -/
def SetStringStr {K : Type} (P : CChainParams) (DecodeBase58Check : Decoder)
    (X : ExtKeyCodec K) (self : CBase58Data) (str : List Char) : SetStringResult :=
  SetString P DecodeBase58Check X self str 1

/-- The method `ToString()`. -/
def ToString (EncodeBase58Check : Encoder) (self : CBase58Data) : List Char :=
  let vch := self.vchVersion
  let vch := vch ++ self.vchData
  EncodeBase58Check vch

/-- The comparison `operator<` of `std::vector<unsigned char>`, that is
`std::lexicographical_compare` over the two ranges. -/
def vecLt : List Byte → List Byte → Bool
  | _, [] => false
  | [], _ :: _ => true
  | a :: as, b :: bs => if a < b then true else if b < a then false else vecLt as bs

/-- The method `CompareTo(b58)`; `x > y` on vectors is `y < x`. -/
def CompareTo (self b58 : CBase58Data) : Int :=
  if vecLt self.vchVersion b58.vchVersion then -1
  else if vecLt b58.vchVersion self.vchVersion then 1
  else if vecLt self.vchData b58.vchData then -1
  else if vecLt b58.vchData self.vchData then 1
  else 0

/-- The operator `operator==`. -/
def opEq (self b58 : CBase58Data) : Bool := decide (CompareTo self b58 = 0)

/-- The operator `operator<=`. -/
def opLe (self b58 : CBase58Data) : Bool := decide (CompareTo self b58 ≤ 0)

/-- The operator `operator>=`. -/
def opGe (self b58 : CBase58Data) : Bool := decide (CompareTo self b58 ≥ 0)

/-- The operator `operator<`. -/
def opLt (self b58 : CBase58Data) : Bool := decide (CompareTo self b58 < 0)

/-- The operator `operator>`. -/
def opGt (self b58 : CBase58Data) : Bool := decide (CompareTo self b58 > 0)

/-- The order of the spec, used to state what `CompareTo` computes: first by version bytes,
then by data bytes, each compared lexicographically (bytewise, a proper prefix first). -/
def versionThenDataLt (a b : CBase58Data) : Prop :=
  List.Lex (fun x y : Byte => x < y) a.vchVersion b.vchVersion
    ∨ (a.vchVersion = b.vchVersion ∧ List.Lex (fun x y : Byte => x < y) a.vchData b.vchData)

end CBase58Data

/-! ## Destinations -/

/-- A 160-bit blob `uint160`: exactly 20 bytes. -/
structure uint160 where
  data : List Byte
  size_eq : data.length = 20
  deriving DecidableEq

/-- The value of a `uint160 id` after `memcpy(&id, src, 20)`: the first 20 bytes at `src`.
Every caller checks the length of the source first; bytes past the end of a shorter source
read as zero here. -/
def uint160.ofData (src : List Byte) : uint160 :=
  { data := resize (src.take 20) 20
    size_eq := by simp [resize] }

/-- A key id `CKeyID`, a `uint160`. -/
structure CKeyID where
  id : uint160
  deriving DecidableEq

/-- A script id `CScriptID`, a `uint160`. -/
structure CScriptID where
  id : uint160
  deriving DecidableEq

/-- The variant `CTxDestination` that `CBitcoinAddressVisitor` dispatches over; `K` is
`CExtKeyPair`.  The alternatives that have no address form carry their raw bytes. -/
inductive CTxDestination (K : Type)
  | NoDestination
  | KeyID (id : CKeyID)
  | ScriptID (id : CScriptID)
  | StealthAddress (sxAddr : List Byte)
  | ExtKeyPair (ek : K)
  | WitnessV0ScriptHash (scriptHash : List Byte)
  | WitnessV0KeyHash (keyHash : List Byte)
  | WitnessUnknown (witUnk : List Byte)
  deriving DecidableEq

/-! ## `CBitcoinAddress` -/

/-- The class `CBitcoinAddress`, a `CBase58Data` without further members. -/
abbrev CBitcoinAddress := CBase58Data

namespace CBitcoinAddress

/-- The method `Set(const CKeyID&)`. -/
def SetKeyID (P : CChainParams) (self : CBitcoinAddress) (id : CKeyID) : Bool × CBitcoinAddress :=
  (true, self.SetData (P.Base58Prefix .PUBKEY_ADDRESS) id.id.data 20)

/-- The method `Set(const CScriptID&)`. -/
def SetScriptID (P : CChainParams) (self : CBitcoinAddress) (id : CScriptID) :
    Bool × CBitcoinAddress :=
  (true, self.SetData (P.Base58Prefix .SCRIPT_ADDRESS) id.id.data 20)

/-- The method `Set(const CKeyID&, CChainParams::Base58Type prefix)`. -/
def SetKeyIDWith (P : CChainParams) (self : CBitcoinAddress) (id : CKeyID)
    (prefixType : Base58Type) : Bool × CBitcoinAddress :=
  (true, self.SetData (P.Base58Prefix prefixType) id.id.data 20)

/-- The method `Set(const CExtKeyPair&)`: the public form only. -/
def SetExtKeyPair {K : Type} (P : CChainParams) (X : ExtKeyCodec K) (self : CBitcoinAddress)
    (ek : K) : Bool × CBitcoinAddress :=
  let vchVersion := P.Base58Prefix .EXT_PUBLIC_KEY
  let data := X.EncodeP ek
  (true, self.SetData vchVersion data 74)

/-- The method `Set(const CTxDestination&)`: `CBitcoinAddressVisitor` applied to `dest`. -/
def Set {K : Type} (P : CChainParams) (X : ExtKeyCodec K) (self : CBitcoinAddress) :
    CTxDestination K → Bool × CBitcoinAddress
  | .KeyID id => SetKeyID P self id
  | .ScriptID id => SetScriptID P self id
  | .StealthAddress _ => (false, self)
  | .ExtKeyPair ek => SetExtKeyPair P X self ek
  | .NoDestination => (false, self)
  | .WitnessV0ScriptHash _ => (false, self)
  | .WitnessV0KeyHash _ => (false, self)
  | .WitnessUnknown _ => (false, self)

/-- The method `IsValid()`. -/
def IsValid (P : CChainParams) (self : CBitcoinAddress) : Bool :=
  if self.vchVersion.length = 4
      ∧ (self.vchVersion = P.Base58Prefix .EXT_PUBLIC_KEY
        ∨ self.vchVersion = P.Base58Prefix .EXT_SECRET_KEY) then
    decide (self.vchData.length = BIP32_KEY_N_BYTES)
  else
    let fCorrectSize := decide (self.vchData.length = 20)
    let fKnownVersion := decide (self.vchVersion = P.Base58Prefix .PUBKEY_ADDRESS) ||
      decide (self.vchVersion = P.Base58Prefix .SCRIPT_ADDRESS)
    fCorrectSize && fKnownVersion

/-- The branch of `Get()` that produces the result. -/
inductive GetBranch
  | invalid
  | keyID
  | scriptID
  | extSecret
  | extPublic
  | noDestination
  deriving DecidableEq, Repr

/-- The control flow of `Get()`: which `return` is taken. -/
def GetPath (P : CChainParams) (self : CBitcoinAddress) : GetBranch :=
  if !IsValid P self then .invalid
  else if self.vchVersion = P.Base58Prefix .PUBKEY_ADDRESS then .keyID
  else if self.vchVersion = P.Base58Prefix .SCRIPT_ADDRESS then .scriptID
  else if self.vchVersion = P.Base58Prefix .EXT_SECRET_KEY then .extSecret
  else if self.vchVersion = P.Base58Prefix .EXT_PUBLIC_KEY then .extPublic
  else .noDestination

/-- The method `Get()`: the value returned on each branch. -/
def Get {K : Type} (P : CChainParams) (X : ExtKeyCodec K) (self : CBitcoinAddress) :
    CTxDestination K :=
  match GetPath P self with
  | .invalid => .NoDestination
  | .keyID => .KeyID { id := uint160.ofData self.vchData }
  | .scriptID => .ScriptID { id := uint160.ofData self.vchData }
  | .extSecret => .ExtKeyPair (X.DecodeV (self.vchData.take 74))
  | .extPublic => .ExtKeyPair (X.DecodeP (self.vchData.take 74))
  | .noDestination => .NoDestination

/-- One call of a public mutating operation of `CBitcoinAddress`. -/
inductive Op (K : Type)
  | SetString (psz : List Char) (nVersionBytes : Nat)
  | SetKeyID (id : CKeyID)
  | SetScriptID (id : CScriptID)
  | SetKeyIDWith (id : CKeyID) (prefixType : Base58Type)
  | SetExtKeyPair (ek : K)
  | Set (dest : CTxDestination K)

/-- The address after one public operation. -/
def step {K : Type} (P : CChainParams) (DecodeBase58Check : Decoder) (X : ExtKeyCodec K)
    (self : CBitcoinAddress) : Op K → CBitcoinAddress
  | .SetString psz nVersionBytes =>
      (CBase58Data.SetString P DecodeBase58Check X self psz nVersionBytes).self
  | .SetKeyID id => (SetKeyID P self id).2
  | .SetScriptID id => (SetScriptID P self id).2
  | .SetKeyIDWith id prefixType => (SetKeyIDWith P self id prefixType).2
  | .SetExtKeyPair ek => (SetExtKeyPair P X self ek).2
  | .Set dest => (Set P X self dest).2

/-- The addresses that a program can build: a default constructed one, and any address
obtained from a reachable one by a public operation. -/
inductive Reachable {K : Type} (P : CChainParams) (DecodeBase58Check : Decoder)
    (X : ExtKeyCodec K) : CBitcoinAddress → Prop
  | init : Reachable P DecodeBase58Check X CBase58Data.init
  | step (self : CBitcoinAddress) (op : Op K) :
      Reachable P DecodeBase58Check X self →
      Reachable P DecodeBase58Check X (step P DecodeBase58Check X self op)

end CBitcoinAddress

namespace CBitcoinAddress

/-- The method `GetKeyID(CKeyID &keyID)`: the returned flag and the value of `keyID` after
the call. -/
def GetKeyID (P : CChainParams) (self : CBitcoinAddress) (keyID : CKeyID) : Bool × CKeyID :=
  if !IsValid P self || decide (self.vchVersion ≠ P.Base58Prefix .PUBKEY_ADDRESS) then
    (false, keyID)
  else
    (true, { id := uint160.ofData self.vchData })

/-- The method `IsScript()`. -/
def IsScript (P : CChainParams) (self : CBitcoinAddress) : Bool :=
  IsValid P self && decide (self.vchVersion = P.Base58Prefix .SCRIPT_ADDRESS)

end CBitcoinAddress

/-! ## `CBitcoinSecret` -/

/-- Modelled from the spec: the class `CKey` of `key.h` (not under `src/`), a secret key:
its raw bytes, whether it is valid, and whether it is flagged compressed. -/
structure CKey where
  keydata : List Byte
  fValid : Bool
  fCompressed : Bool
  deriving DecidableEq, Repr

namespace CKey

/-- The accessor `IsValid()`. -/
def IsValid (k : CKey) : Bool := k.fValid

/-- The accessor `IsCompressed()`. -/
def IsCompressed (k : CKey) : Bool := k.fCompressed

/-- The bytes found at `begin()`. -/
def begin (k : CKey) : List Byte := k.keydata

/-- The accessor `size()`: the number of raw bytes. -/
def size (k : CKey) : Nat := k.keydata.length

end CKey

/-- The class `CBitcoinSecret`, a `CBase58Data` without further members. -/
abbrev CBitcoinSecret := CBase58Data

namespace CBitcoinSecret

/-- The method `SetKey(vchSecret)`; `none` when `assert(vchSecret.IsValid())` fails. -/
def SetKey (P : CChainParams) (self : CBitcoinSecret) (vchSecret : CKey) :
    Option CBitcoinSecret :=
  if !vchSecret.IsValid then none
  else
    let self := self.SetData (P.Base58Prefix .SECRET_KEY) vchSecret.begin vchSecret.size
    if vchSecret.IsCompressed then
      some { self with vchData := self.vchData ++ [1] }
    else
      some self

/-- The method `IsValid()`; `vchData[32]` is read only when the size is 33. -/
def IsValid (P : CChainParams) (self : CBitcoinSecret) : Bool :=
  let fExpectedFormat := decide (self.vchData.length = 32) ||
    (decide (self.vchData.length = 33) && decide (self.vchData.getD 32 0 = 1))
  let fCorrectVersion := decide (self.vchVersion = P.Base58Prefix .SECRET_KEY)
  fExpectedFormat && fCorrectVersion

/-- The method `SetString(pszSecret)`: the returned flag and the object after the call. -/
def SetString {K : Type} (P : CChainParams) (DecodeBase58Check : Decoder) (X : ExtKeyCodec K)
    (self : CBitcoinSecret) (pszSecret : List Char) : Bool × CBitcoinSecret :=
  let r := CBase58Data.SetString P DecodeBase58Check X self pszSecret 1
  (r.ret && IsValid P r.self, r.self)

end CBitcoinSecret

/-! ## `CExtKey58` -/

/-- Modelled from the spec: the constant `BIP32_KEY_LEN` of `extkey.h` (not under `src/`),
the length of a decoded extended key text: 4 prefix bytes, 74 key bytes, 4 checksum bytes. -/
def BIP32_KEY_LEN : Nat := 82

/-- The class `CExtKey58`, a `CBase58Data` without further members. -/
abbrev CExtKey58 := CBase58Data

namespace CExtKey58

/-- The method `SetKey(key, type)`. -/
def SetKey {K : Type} (P : CChainParams) (X : ExtKeyCodec K) (self : CExtKey58) (key : K)
    (type : Base58Type) : CExtKey58 :=
  let vch :=
    match type with
    | .EXT_SECRET_KEY => X.EncodeV key
    | .EXT_SECRET_KEY_BTC => X.EncodeV key
    | _ => X.EncodeP key
  self.SetData (P.Base58Prefix type) vch 74

/-- The form in which `GetKey()` reads the data. -/
inductive KeyForm
  | secretForm
  | publicForm
  deriving DecidableEq, Repr

/-- The control flow of `GetKey()`: the test of lines 503-504 names `EXT_SECRET_KEY` in both
of its operands. -/
def GetKeyForm (P : CChainParams) (self : CExtKey58) : KeyForm :=
  if self.vchVersion = P.Base58Prefix .EXT_SECRET_KEY
      ∨ self.vchVersion = P.Base58Prefix .EXT_SECRET_KEY then .secretForm
  else .publicForm

/-- The method `GetKey()`. -/
def GetKey {K : Type} (P : CChainParams) (X : ExtKeyCodec K) (self : CExtKey58) : K :=
  match GetKeyForm P self with
  | .secretForm => X.DecodeV (self.vchData.take 74)
  | .publicForm => X.DecodeP (self.vchData.take 74)

/-- The kind that `Set58` detects from the leading 4 bytes (lines 526-539); `none` when no
candidate prefix matches. -/
def Set58Type (P : CChainParams) (vchBytes : List Byte) : Option Base58Type :=
  if memcmpEq vchBytes (P.Base58Prefix .EXT_SECRET_KEY) 4 then some .EXT_SECRET_KEY
  else if memcmpEq vchBytes (P.Base58Prefix .EXT_PUBLIC_KEY) 4 then some .EXT_PUBLIC_KEY
  else if memcmpEq vchBytes (P.Base58Prefix .EXT_SECRET_KEY_BTC) 4 then some .EXT_SECRET_KEY_BTC
  else if memcmpEq vchBytes (P.Base58Prefix .EXT_PUBLIC_KEY_BTC) 4 then some .EXT_PUBLIC_KEY_BTC
  else none

/-- The method `Set58(base58)`: the returned code and the object after the call.
`DecodeBase58` and `VerifyChecksum` are declared outside `base58.h`. -/
def Set58 (P : CChainParams) (DecodeBase58 : Decoder) (VerifyChecksum : List Byte → Bool)
    (self : CExtKey58) (base58 : List Char) : Int × CExtKey58 :=
  let vchBytes := (DecodeBase58 base58).2
  if !(DecodeBase58 base58).1 then (1, self)
  else if vchBytes.length ≠ BIP32_KEY_LEN then (2, self)
  else if !VerifyChecksum vchBytes then (3, self)
  else
    match Set58Type P vchBytes with
    | none => (4, self)
    | some type => (0, self.SetData (P.Base58Prefix type) (vchBytes.drop 4) 74)

end CExtKey58

/-! ## Further accessors, and the reads of the data bytes -/

namespace CBitcoinAddress

/-- The method `IsValid(CChainParams::Base58Type prefix)`. -/
def IsValidWith (P : CChainParams) (self : CBitcoinAddress) (prefixType : Base58Type) : Bool :=
  let fKnownVersion := decide (self.vchVersion = P.Base58Prefix prefixType)
  if prefixType = .EXT_PUBLIC_KEY ∨ prefixType = .EXT_SECRET_KEY then
    fKnownVersion && decide (self.vchData.length = BIP32_KEY_N_BYTES)
  else
    let fCorrectSize := decide (self.vchData.length = 20)
    fCorrectSize && fKnownVersion

/-- The method `GetKeyID(CKeyID &keyID, CChainParams::Base58Type prefix)`: the returned flag
and the value of `keyID` after the call. -/
def GetKeyIDWith (P : CChainParams) (self : CBitcoinAddress) (keyID : CKeyID)
    (prefixType : Base58Type) : Bool × CKeyID :=
  if !IsValidWith P self prefixType then
    (false, keyID)
  else
    (true, { id := uint160.ofData self.vchData })

/-- What a call reads from `&vchData[0]`: nothing, the 20 bytes of a `memcpy(&id, ., 20)`, or
the 74 bytes of a `DecodeV` or `DecodeP`. -/
inductive DataRead
  | noRead
  | copy20
  | decode74
  deriving DecidableEq, Repr

/-- The read is within a vector of `size` bytes: a copy of 20 bytes needs at least 20 bytes,
the decoding of an extended key is given exactly 74 bytes. -/
def DataRead.InBounds (r : DataRead) (size : Nat) : Prop :=
  match r with
  | .noRead => True
  | .copy20 => 20 ≤ size
  | .decode74 => size = 74

/-- The read of `vchData` on each branch of `Get()` (lines 302-330). -/
def GetBranch.read : GetBranch → DataRead
  | .invalid => .noRead
  | .keyID => .copy20
  | .scriptID => .copy20
  | .extSecret => .decode74
  | .extPublic => .decode74
  | .noDestination => .noRead

/-- The read of `vchData` made by `Get()`. -/
def GetRead (P : CChainParams) (self : CBitcoinAddress) : DataRead :=
  (GetPath P self).read

/-- The read of `vchData` made by `GetKeyID(keyID)`: none on the early return of line 335,
the `memcpy` of line 337 otherwise. -/
def GetKeyIDRead (P : CChainParams) (self : CBitcoinAddress) : DataRead :=
  if !IsValid P self || decide (self.vchVersion ≠ P.Base58Prefix .PUBKEY_ADDRESS) then
    .noRead
  else
    .copy20

/-- The read of `vchData` made by `GetKeyID(keyID, prefix)`: none on the early return of line
344, the `memcpy` of line 346 otherwise. -/
def GetKeyIDWithRead (P : CChainParams) (self : CBitcoinAddress) (prefixType : Base58Type) :
    DataRead :=
  if !IsValidWith P self prefixType then .noRead else .copy20

end CBitcoinAddress

namespace CBitcoinSecret

/-- The arguments of the call `ret.Set(&vchData[0], &vchData[32], fCompressedIn)` made by
`GetKey()`: the bytes of the range `[0, 32)` and the flag
`vchData.size() > 32 && vchData[32] == 1`. -/
def GetKeyArgs (self : CBitcoinSecret) : List Byte × Bool :=
  (self.vchData.take 32,
    decide (self.vchData.length > 32) && decide (self.vchData.getD 32 0 = 1))

/-- The method `GetKey()`.  `CKeySet pbegin_pend fCompressedIn` is the state of a default
constructed `CKey` after `CKey::Set` (`key.h`, not under `src/`). -/
def GetKey (CKeySet : List Byte → Bool → CKey) (self : CBitcoinSecret) : CKey :=
  CKeySet (GetKeyArgs self).1 (GetKeyArgs self).2

end CBitcoinSecret

/-! ## The base58 engine

`EncodeBase58` and `DecodeBase58` are declared in `base58.h`; their bodies are not part of
`src/`.  They are modelled from section 4.1 of the spec, over unbounded naturals. -/

/-- Modelled from the spec: the 58-character alphabet of `EncodedText`, in digit order (the
body of the engine is not under `src/`). -/
def pszBase58 : List Char :=
  "123456789ABCDEFGHJKLMNPQRSTUVWXYZabcdefghijkmnopqrstuvwxyz".toList

/-- Modelled from the spec: the input byte sequence read as a big-endian unsigned integer. -/
def bytesToNat (vch : List Byte) : Nat :=
  vch.foldl (fun value x => value * 256 + x.val) 0

/-- Modelled from the spec: "repeatedly divide by the base, emitting the remainder, until the
value is zero"; the remainders come out least significant first.  The first argument bounds
the number of divisions; `value` itself is always enough. -/
def emitDigits (base : Nat) : Nat → Nat → List Nat
  | 0, _ => []
  | fuel + 1, value =>
    if value = 0 then [] else (value % base) :: emitDigits base fuel (value / base)

/-- Modelled from the spec: the number of leading zero bytes of the input. -/
def leadingZeros (vch : List Byte) : Nat :=
  (vch.takeWhile (fun x => x == 0)).length

/-- Modelled from the spec: the number of leading `1` characters of the text. -/
def leadingOnes (psz : List Char) : Nat :=
  (psz.takeWhile (fun c => c == '1')).length

/-- Modelled from the spec: `EncodeBase58`, section 4.1: divide by 58 until zero, emit the
alphabet character of each remainder, reverse, and prepend one `1` for every leading zero
byte.  Empty input gives the empty text. -/
def EncodeBase58 (vch : List Byte) : List Char :=
  let value := bytesToNat vch
  let emitted := (emitDigits 58 value value).map (fun d => pszBase58.getD d '1')
  List.replicate (leadingZeros vch) '1' ++ emitted.reverse

/-- Modelled from the spec: the digit of a character, `none` outside the alphabet. -/
def digitIndex (c : Char) : Option Nat :=
  if pszBase58.indexOf c < 58 then some (pszBase58.indexOf c) else none

/-- Modelled from the spec: "for each character, fail if it is not in the alphabet; otherwise
accumulate `value = value * 58 + digitIndex`". -/
def accumulate58 : List Char → Nat → Option Nat
  | [], value => some value
  | c :: cs, value =>
    match digitIndex c with
    | none => none
    | some d => accumulate58 cs (value * 58 + d)

/-- Modelled from the spec: the minimal big-endian byte sequence of a value (empty for 0). -/
def natToBytes (value : Nat) : List Byte :=
  ((emitDigits 256 value value).map (fun d => (Fin.ofNat d : Byte))).reverse

/-- Modelled from the spec: `DecodeBase58`, section 4.1: accumulate the digits, convert the
value to its minimal big-endian bytes, and prepend one zero byte for every leading `1`
character; `none` on a character outside the alphabet.  The empty text gives the empty
byte sequence. -/
def DecodeBase58 (psz : List Char) : Option (List Byte) :=
  match accumulate58 psz 0 with
  | none => none
  | some value => some (List.replicate (leadingOnes psz) 0 ++ natToBytes value)

/-! ## Example instances of the collaborators

Concrete values for the parameters, used to evaluate the definitions on inputs. -/

/-- An example network profile: the address versions 25 and 85 named in `base58.h`, and
four-byte extended key prefixes. -/
def exampleParams : CChainParams :=
  { base58Prefixes := fun t =>
      match t with
      | .PUBKEY_ADDRESS => [25]
      | .SCRIPT_ADDRESS => [85]
      | .SECRET_KEY => [153]
      | .EXT_PUBLIC_KEY => [0x2c, 0x51, 0x3b, 0xd7]
      | .EXT_SECRET_KEY => [0x2c, 0x51, 0xc1, 0x5a]
      | .EXT_PUBLIC_KEY_BTC => [0x04, 0x88, 0xb2, 0x1e]
      | .EXT_SECRET_KEY_BTC => [0x04, 0x88, 0xad, 0xe4]
      | .OTHER _ => [] }

/-- A well-known Base58Check text: the address of the payload `refPayload`. -/
def refText : List Char := "1A1zP1eP5QGefi2DMPTfTL5SLmv7DivfNa".toList

/-- The payload of `refText` (testable property 7 of the spec): version byte `0x00` and the
20 data bytes `62e907b15cbf27d5425399ebf6f0fb50ebb88f18`. -/
def refPayload : List Byte :=
  [0x00, 0x62, 0xe9, 0x07, 0xb1, 0x5c, 0xbf, 0x27, 0xd5, 0x42, 0x53, 0x99, 0xeb, 0xf6, 0xf0,
   0xfb, 0x50, 0xeb, 0xb8, 0x8f, 0x18]

/-- A text that is not base58: the character `0` is outside the alphabet. -/
def badText : List Char := "0".toList

/-- A checked decoder restricted to known answers: it decodes `refText` to `refPayload`, and
reports a failure with an empty buffer for every other text. -/
def refDecoder : Decoder := fun psz =>
  if psz = refText then (true, refPayload) else (false, [])

/-- A 78-byte payload in the secret extended key shape of `exampleParams`. -/
def secretPayload : List Byte :=
  [0x2c, 0x51, 0xc1, 0x5a] ++ List.replicate 70 7 ++ [1, 2, 3, 4]

/-- A container in the secret extended key shape of `exampleParams`: the secret prefix as
version and 74 data bytes; version and data together are `secretPayload`. -/
def secretContainer : CBase58Data :=
  { vchVersion := [0x2c, 0x51, 0xc1, 0x5a], vchData := List.replicate 70 7 ++ [1, 2, 3, 4] }

/-- A container in the address shape: one version byte and 20 data bytes; version and data
together are `refPayload`. -/
def addressContainer : CBase58Data :=
  { vchVersion := [0x00], vchData := refPayload.drop 1 }

/-- A key id: the 20 data bytes of `refPayload`. -/
def exampleKeyID : CKeyID :=
  { id := { data := refPayload.drop 1, size_eq := by decide } }

/-- A script id with the same 20 bytes. -/
def exampleScriptID : CScriptID :=
  { id := { data := refPayload.drop 1, size_eq := by decide } }

/-- A valid secret key of 32 bytes, flagged compressed. -/
def exampleKey : CKey :=
  { keydata := List.replicate 31 0 ++ [1], fValid := true, fCompressed := true }

/-- A stand-in for `CKey::Set`: a range of 32 bytes gives a valid key with these bytes and
the given flag, any other range an invalid key. -/
def exampleKeySet (vch : List Byte) (fCompressedIn : Bool) : CKey :=
  if vch.length = 32 then { keydata := vch, fValid := true, fCompressed := fCompressedIn }
  else { keydata := [], fValid := false, fCompressed := false }

/-- An extended key pair of the example codec `exampleExtKey`. -/
def exampleKeyPair : List Byte := List.replicate 74 7

/-- A stand-in for the text codec: one character per byte. -/
def charEncoder : Encoder := fun vchIn =>
  vchIn.map (fun b => Char.ofNat b.val)

/-- The decoder that goes with `charEncoder`. -/
def charDecoder : Decoder := fun psz =>
  (true, psz.map (fun c => Fin.ofNat c.toNat))

/-- A stand-in for the 4-byte checksum: the sum of the bytes, then three zero bytes. -/
def sumChecksum (vch : List Byte) : List Byte :=
  [vch.foldl (fun a x => a + x) 0, 0, 0, 0]

/-- A stand-in for `EncodeBase58Check`: the bytes and their `sumChecksum`, one character per
byte. -/
def sumEncoder : Encoder := fun vchIn =>
  charEncoder (vchIn ++ sumChecksum vchIn)

/-- A stand-in for `VerifyChecksum`: the last 4 bytes are the `sumChecksum` of the others. -/
def sumVerifyChecksum (vch : List Byte) : Bool :=
  vch.drop (vch.length - 4) == sumChecksum (vch.take (vch.length - 4))

/-- A stand-in for `CExtKeyPair`: a key pair is its secret byte string, the secret form is
that string on 74 bytes and the public form adds one to every byte. -/
def exampleExtKey : ExtKeyCodec (List Byte) :=
  { EncodeV := fun k => resize k 74
    EncodeP := fun k => resize (k.map (fun b => b + 1)) 74
    DecodeV := fun l => l
    DecodeP := fun l => l.map (fun b => b - 1)
    EncodeV_length := fun k => by simp [resize]; omega
    EncodeP_length := fun k => by simp [resize]; omega }

/-! ## Memory helpers -/

theorem resize_length (v : List Byte) (n : Nat) : (resize v n).length = n := by
  simp [resize]; omega

/-- Resizing to the length of `src` and copying `src` over gives `src`, whatever the vector
held before. -/
theorem resize_memcpy (old src : List Byte) (n : Nat) (h : src.length = n) :
    (if (resize old n).isEmpty then resize old n else memcpy (resize old n) src n) = src := by
  subst h
  cases src with
  | nil => simp [resize]
  | cons a t =>
    have h : (resize old (a :: t).length).length = (a :: t).length := resize_length _ _
    have hne : (resize old (a :: t).length).isEmpty = false := by
      cases hr : resize old (a :: t).length with
      | nil => rw [hr] at h; simp at h
      | cons _ _ => rfl
    rw [hne]
    simp only [memcpy, Bool.false_eq_true, if_false]
    rw [List.take_of_length_le (le_refl _), List.drop_eq_nil_of_le (le_of_eq h)]
    simp

theorem OPENSSL_cleanse_eq (buf : List Byte) (n : Nat) :
    OPENSSL_cleanse buf n = List.replicate (min n buf.length) 0 ++ buf.drop n := by
  induction buf generalizing n with
  | nil => simp [OPENSSL_cleanse]
  | cons b bs ih =>
    cases n with
    | zero => simp [OPENSSL_cleanse]
    | succ k => simp [OPENSSL_cleanse, ih, List.replicate_succ, Nat.succ_min_succ]

set_option maxRecDepth 100000 in
theorem charCodec_byte : ∀ x : Byte, (Fin.ofNat (Char.ofNat x.val).toNat : Byte) = x := by
  decide

theorem charCodec_roundtrip (b : List Byte) : charDecoder (charEncoder b) = (true, b) := by
  have h := charCodec_byte
  simp [charDecoder, charEncoder, List.map_map, Function.comp_def, h]

theorem memcmpEq_iff (a b : List Byte) (n : Nat) (hb : b.length = n) :
    memcmpEq a b n = true ↔ a.take n = b := by
  simp [memcmpEq, List.take_of_length_le (le_of_eq hb)]

/-! ## `CBase58Data::SetData` and `CBase58Data::SetString` -/

namespace CBase58Data

/-- The method `SetData` called with a source of exactly `nSize` bytes stores the prefix and
these bytes. -/
theorem SetData_eq (self : CBase58Data) (v pdata : List Byte) (nSize : Nat)
    (h : pdata.length = nSize) :
    SetData self v pdata nSize = { vchVersion := v, vchData := pdata } := by
  unfold SetData
  simp only [resize_memcpy self.vchData pdata nSize h]

/-- The exit of line 149: the buffer is at least `nVersionBytes` long. -/
theorem SetStringSplit_of_le (self : CBase58Data) (p : List Byte) (n : Nat)
    (h : n ≤ p.length) :
    SetStringSplit self p n =
      { ret := true
        self := { vchVersion := p.take n, vchData := p.drop n }
        vchTemp := OPENSSL_cleanse p (p.length - n) } := by
  have hlen : (p.drop n).length = p.length - n := by simp
  have hcopy := resize_memcpy self.vchData (p.drop n) (p.length - n) hlen
  unfold SetStringSplit
  rw [if_neg (not_lt.mpr h)]
  simp only [resize_length]
  rw [hcopy, hlen]

/-- The exit of line 141: the buffer is shorter than `nVersionBytes`. -/
theorem SetStringSplit_of_lt (self : CBase58Data) (p : List Byte) (n : Nat)
    (h : p.length < n) :
    SetStringSplit self p n =
      { ret := false, self := { vchVersion := [], vchData := [] }, vchTemp := p } := by
  unfold SetStringSplit
  rw [if_pos h]

/-- The exit of line 133: the object holds the public prefix and the public re-encoding. -/
theorem SetStringSecret_eq {K : Type} (P : CChainParams) (X : ExtKeyCodec K)
    (self : CBase58Data) (p : List Byte) :
    SetStringSecret P X self p =
      { ret := true
        self := { vchVersion := P.Base58Prefix .EXT_PUBLIC_KEY
                  vchData := X.EncodeP (X.DecodeV ((p.drop 4).take 74)) }
        vchTemp := OPENSSL_cleanse p 74 } := by
  have hcopy : memcpy (resize self.vchData 74) (X.EncodeP (X.DecodeV ((p.drop 4).take 74))) 74
      = X.EncodeP (X.DecodeV ((p.drop 4).take 74)) := by
    simp only [memcpy]
    rw [List.take_of_length_le (le_of_eq (X.EncodeP_length _)),
      List.drop_eq_nil_of_le (le_of_eq (resize_length _ _))]
    simp
  unfold SetStringSecret
  simp only [hcopy, X.EncodeP_length]

/-- A 78-byte payload with the public extended key prefix is split after 4 bytes. -/
theorem SetString_of_public {K : Type} (P : CChainParams) (D : Decoder) (X : ExtKeyCodec K)
    (self : CBase58Data) (psz : List Char) (n : Nat)
    (hPub : (P.Base58Prefix .EXT_PUBLIC_KEY).length = 4)
    (h78 : (D psz).2.length = 78)
    (hpub : (D psz).2.take 4 = P.Base58Prefix .EXT_PUBLIC_KEY) :
    SetString P D X self psz n = SetStringSplit self (D psz).2 4 := by
  unfold SetString
  simp only [BIP32_KEY_N_BYTES]
  rw [if_pos h78, if_pos ((memcmpEq_iff _ _ 4 hPub).mpr hpub)]

/-- A 78-byte payload with the secret extended key prefix, and not the public one, takes the
secret branch. -/
theorem SetString_of_secret {K : Type} (P : CChainParams) (D : Decoder) (X : ExtKeyCodec K)
    (self : CBase58Data) (psz : List Char) (n : Nat)
    (hPub : (P.Base58Prefix .EXT_PUBLIC_KEY).length = 4)
    (hSec : (P.Base58Prefix .EXT_SECRET_KEY).length = 4)
    (h78 : (D psz).2.length = 78)
    (hpub : (D psz).2.take 4 ≠ P.Base58Prefix .EXT_PUBLIC_KEY)
    (hsec : (D psz).2.take 4 = P.Base58Prefix .EXT_SECRET_KEY) :
    SetString P D X self psz n = SetStringSecret P X self (D psz).2 := by
  unfold SetString
  simp only [BIP32_KEY_N_BYTES]
  rw [if_pos h78, if_neg (fun h => hpub ((memcmpEq_iff _ _ 4 hPub).mp h)),
    if_pos ((memcmpEq_iff _ _ 4 hSec).mpr hsec)]

/-- Any other payload is split after `nVersionBytes` bytes. -/
theorem SetString_of_other {K : Type} (P : CChainParams) (D : Decoder) (X : ExtKeyCodec K)
    (self : CBase58Data) (psz : List Char) (n : Nat)
    (hPub : (P.Base58Prefix .EXT_PUBLIC_KEY).length = 4)
    (hSec : (P.Base58Prefix .EXT_SECRET_KEY).length = 4)
    (hShape : ¬ ((D psz).2.length = 78
      ∧ ((D psz).2.take 4 = P.Base58Prefix .EXT_PUBLIC_KEY
        ∨ (D psz).2.take 4 = P.Base58Prefix .EXT_SECRET_KEY))) :
    SetString P D X self psz n = SetStringSplit self (D psz).2 n := by
  unfold SetString
  simp only [BIP32_KEY_N_BYTES]
  by_cases h78 : (D psz).2.length = 78
  · rw [if_pos h78,
      if_neg (fun h => hShape ⟨h78, Or.inl ((memcmpEq_iff _ _ 4 hPub).mp h)⟩),
      if_neg (fun h => hShape ⟨h78, Or.inr ((memcmpEq_iff _ _ 4 hSec).mp h)⟩)]
  · rw [if_neg h78]

/-- A decode that leaves the buffer empty makes `SetString` fail as soon as at least one
version byte is expected. -/
theorem SetString_of_empty {K : Type} (P : CChainParams) (D : Decoder) (X : ExtKeyCodec K)
    (self : CBase58Data) (psz : List Char) (n : Nat)
    (hempty : (D psz).2 = []) (hn : 0 < n) :
    (SetString P D X self psz n).ret = false := by
  unfold SetString
  simp only [hempty, BIP32_KEY_N_BYTES]
  rw [if_neg (by simp), SetStringSplit_of_lt self [] n (by simpa using hn)]

/-- Claim C1: on the non-secret path (the decoded payload `p` is not a 78-byte payload that
starts with the secret extended key prefix) with `m ≤ |p|`, where `m` is 4 for a 78-byte
payload that starts with the public extended key prefix and `nVersionBytes` otherwise,
`SetString` returns true and leaves `version = p[0..m)` and `data = p[m..|p|)`, so that
`version ++ data = p`. -/
theorem SetString_nonsecret_split {K : Type} (P : CChainParams) (DecodeBase58Check : Decoder)
    (X : ExtKeyCodec K) (self : CBase58Data) (psz : List Char) (nVersionBytes : Nat)
    (p : List Byte) (m : Nat)
    (hPub : (P.Base58Prefix .EXT_PUBLIC_KEY).length = 4)
    (hSec : (P.Base58Prefix .EXT_SECRET_KEY).length = 4)
    (hp : (DecodeBase58Check psz).2 = p)
    (hm : m = if p.length = 78 ∧ p.take 4 = P.Base58Prefix .EXT_PUBLIC_KEY then 4
      else nVersionBytes)
    (hNotSecret : ¬ (p.length = 78 ∧ p.take 4 = P.Base58Prefix .EXT_SECRET_KEY))
    (hLen : m ≤ p.length) :
    (SetString P DecodeBase58Check X self psz nVersionBytes).ret = true
      ∧ (SetString P DecodeBase58Check X self psz nVersionBytes).self.vchVersion = p.take m
      ∧ (SetString P DecodeBase58Check X self psz nVersionBytes).self.vchData = p.drop m
      ∧ (SetString P DecodeBase58Check X self psz nVersionBytes).self.vchVersion
          ++ (SetString P DecodeBase58Check X self psz nVersionBytes).self.vchData = p := by
  have key : SetString P DecodeBase58Check X self psz nVersionBytes = SetStringSplit self p m := by
    subst hp
    by_cases hpub : (DecodeBase58Check psz).2.length = 78
        ∧ (DecodeBase58Check psz).2.take 4 = P.Base58Prefix .EXT_PUBLIC_KEY
    · rw [hm, if_pos hpub]
      exact SetString_of_public P _ X self psz _ hPub hpub.1 hpub.2
    · rw [hm, if_neg hpub]
      refine SetString_of_other P _ X self psz _ hPub hSec ?_
      rintro ⟨h78, h | h⟩
      · exact hpub ⟨h78, h⟩
      · exact hNotSecret ⟨h78, h⟩
  rw [key, SetStringSplit_of_le self p m hLen]
  simp

/-- The text `refText` read with one version byte: the version is `[0x00]` and the data are
the 20 hash bytes. -/
theorem SetString_nonsecret_split_witness :
    (SetString exampleParams refDecoder exampleExtKey init refText 1).ret = true
      ∧ (SetString exampleParams refDecoder exampleExtKey init refText 1).self.vchVersion
          = refPayload.take 1
      ∧ (SetString exampleParams refDecoder exampleExtKey init refText 1).self.vchData
          = refPayload.drop 1
      ∧ (SetString exampleParams refDecoder exampleExtKey init refText 1).self.vchVersion
          ++ (SetString exampleParams refDecoder exampleExtKey init refText 1).self.vchData
          = refPayload :=
  SetString_nonsecret_split exampleParams refDecoder exampleExtKey init refText 1 refPayload 1
    (by decide) (by decide) (by decide) (by decide) (by decide) (by decide)

/-- Claim C2: when the decoded payload is not in the 78-byte extended key shape and is
shorter than `nVersionBytes`, `SetString` returns false and leaves the version bytes and the
data bytes empty, whatever the object held before. -/
theorem SetString_truncated {K : Type} (P : CChainParams) (DecodeBase58Check : Decoder)
    (X : ExtKeyCodec K) (self : CBase58Data) (psz : List Char) (nVersionBytes : Nat)
    (hPub : (P.Base58Prefix .EXT_PUBLIC_KEY).length = 4)
    (hSec : (P.Base58Prefix .EXT_SECRET_KEY).length = 4)
    (hShape : ¬ ((DecodeBase58Check psz).2.length = 78
      ∧ ((DecodeBase58Check psz).2.take 4 = P.Base58Prefix .EXT_PUBLIC_KEY
        ∨ (DecodeBase58Check psz).2.take 4 = P.Base58Prefix .EXT_SECRET_KEY)))
    (hShort : (DecodeBase58Check psz).2.length < nVersionBytes) :
    (SetString P DecodeBase58Check X self psz nVersionBytes).ret = false
      ∧ (SetString P DecodeBase58Check X self psz nVersionBytes).self.vchVersion = []
      ∧ (SetString P DecodeBase58Check X self psz nVersionBytes).self.vchData = [] := by
  rw [SetString_of_other P _ X self psz _ hPub hSec hShape,
    SetStringSplit_of_lt self _ nVersionBytes hShort]
  simp

/-- The 21-byte payload `refPayload` read with `nVersionBytes = 22` into an object that held a
version and data: the call fails and the object is emptied. -/
theorem SetString_truncated_witness :
    (SetString exampleParams refDecoder exampleExtKey
        { vchVersion := [25], vchData := [1, 2, 3] } refText 22).ret = false
      ∧ (SetString exampleParams refDecoder exampleExtKey
        { vchVersion := [25], vchData := [1, 2, 3] } refText 22).self.vchVersion = []
      ∧ (SetString exampleParams refDecoder exampleExtKey
        { vchVersion := [25], vchData := [1, 2, 3] } refText 22).self.vchData = [] :=
  SetString_truncated exampleParams refDecoder exampleExtKey
    { vchVersion := [25], vchData := [1, 2, 3] } refText 22
    (by decide) (by decide) (by decide) (by decide)

/-- Claim C3: when the decoded payload `p` has 78 bytes and starts with the secret extended
key prefix (and not with the public one), `SetString` returns true for every
`nVersionBytes`, stores the public extended key prefix as version, and stores as data the
74-byte public encoding `EncodeP(DecodeV(p[4..78)))`. -/
theorem SetString_secret_extkey {K : Type} (P : CChainParams) (DecodeBase58Check : Decoder)
    (X : ExtKeyCodec K) (self : CBase58Data) (psz : List Char) (nVersionBytes : Nat)
    (p : List Byte)
    (hPub : (P.Base58Prefix .EXT_PUBLIC_KEY).length = 4)
    (hSec : (P.Base58Prefix .EXT_SECRET_KEY).length = 4)
    (hp : (DecodeBase58Check psz).2 = p)
    (h78 : p.length = 78)
    (hsec : p.take 4 = P.Base58Prefix .EXT_SECRET_KEY)
    (hpub : p.take 4 ≠ P.Base58Prefix .EXT_PUBLIC_KEY) :
    (SetString P DecodeBase58Check X self psz nVersionBytes).ret = true
      ∧ (SetString P DecodeBase58Check X self psz nVersionBytes).self.vchVersion
          = P.Base58Prefix .EXT_PUBLIC_KEY
      ∧ (SetString P DecodeBase58Check X self psz nVersionBytes).self.vchData
          = X.EncodeP (X.DecodeV ((p.drop 4).take 74))
      ∧ (SetString P DecodeBase58Check X self psz nVersionBytes).self.vchData.length = 74
      ∧ (p.drop 4).take 74 = p.drop 4 := by
  subst hp
  rw [SetString_of_secret P _ X self psz _ hPub hSec h78 hpub hsec, SetStringSecret_eq]
  refine ⟨rfl, rfl, rfl, X.EncodeP_length _, ?_⟩
  exact List.take_of_length_le (by simp [h78])

/-- The payload `secretPayload` under the example profile: the stored version is the public
prefix and the stored data are the public encoding. -/
theorem SetString_secret_extkey_witness :
    (SetString exampleParams charDecoder exampleExtKey init (charEncoder secretPayload) 1).ret
        = true
      ∧ (SetString exampleParams charDecoder exampleExtKey init
          (charEncoder secretPayload) 1).self.vchVersion = [0x2c, 0x51, 0x3b, 0xd7]
      ∧ (SetString exampleParams charDecoder exampleExtKey init
          (charEncoder secretPayload) 1).self.vchData
          = exampleExtKey.EncodeP (exampleExtKey.DecodeV ((secretPayload.drop 4).take 74))
      ∧ (SetString exampleParams charDecoder exampleExtKey init
          (charEncoder secretPayload) 1).self.vchData.length = 74
      ∧ (secretPayload.drop 4).take 74 = secretPayload.drop 4 :=
  SetString_secret_extkey exampleParams charDecoder exampleExtKey init
    (charEncoder secretPayload) 1 secretPayload (by decide) (by decide)
    (congrArg Prod.snd (charCodec_roundtrip secretPayload)) (by decide) (by decide) (by decide)

end CBase58Data

/-! ## `CBitcoinAddress`: no valid address carries the secret extended key prefix -/

namespace CBitcoinAddress

open CBase58Data

/-- After the split of lines 137-149 the object does not hold the 4-byte prefix `sec` with 74
data bytes, unless the buffer was a 78-byte payload starting with `sec`. -/
theorem SetStringSplit_not_secret (self : CBase58Data) (p sec : List Byte) (n : Nat)
    (hSec : sec.length = 4) (h : ¬ (p.length = 78 ∧ p.take 4 = sec)) :
    ¬ ((SetStringSplit self p n).self.vchVersion = sec
      ∧ (SetStringSplit self p n).self.vchData.length = 74) := by
  by_cases hn : n ≤ p.length
  · rw [SetStringSplit_of_le self p n hn]
    rintro ⟨hv, hd⟩
    simp only [List.length_drop] at hd
    replace hv : p.take n = sec := hv
    have hlen : (p.take n).length = 4 := by rw [hv, hSec]
    simp only [List.length_take] at hlen
    have hn4 : n = 4 := by omega
    subst hn4
    exact h ⟨by omega, hv⟩
  · rw [SetStringSplit_of_lt self p n (not_le.mp hn)]
    rintro ⟨hv, _⟩
    replace hv : [] = sec := hv
    rw [← hv] at hSec
    simp at hSec

/-- Whatever the text and `nVersionBytes`, `SetString` does not leave the secret extended key
prefix with 74 data bytes. -/
theorem SetString_not_secret {K : Type} (P : CChainParams) (D : Decoder) (X : ExtKeyCodec K)
    (self : CBase58Data) (psz : List Char) (n : Nat)
    (hPub : (P.Base58Prefix .EXT_PUBLIC_KEY).length = 4)
    (hSec : (P.Base58Prefix .EXT_SECRET_KEY).length = 4)
    (hne : P.Base58Prefix .EXT_PUBLIC_KEY ≠ P.Base58Prefix .EXT_SECRET_KEY) :
    ¬ ((SetString P D X self psz n).self.vchVersion = P.Base58Prefix .EXT_SECRET_KEY
      ∧ (SetString P D X self psz n).self.vchData.length = 74) := by
  by_cases h78 : (D psz).2.length = 78
  · by_cases hpub : (D psz).2.take 4 = P.Base58Prefix .EXT_PUBLIC_KEY
    · rw [SetString_of_public P D X self psz n hPub h78 hpub]
      exact SetStringSplit_not_secret self _ _ 4 hSec (fun h => hne (hpub.symm.trans h.2))
    · by_cases hsec : (D psz).2.take 4 = P.Base58Prefix .EXT_SECRET_KEY
      · rw [SetString_of_secret P D X self psz n hPub hSec h78 hpub hsec, SetStringSecret_eq]
        exact fun h => hne h.1
      · rw [SetString_of_other P D X self psz n hPub hSec
          (fun h => h.2.elim (fun h => hpub h) (fun h => hsec h))]
        exact SetStringSplit_not_secret self _ _ n hSec (fun h => hsec h.2)
  · rw [SetString_of_other P D X self psz n hPub hSec (fun h => h78 h.1)]
    exact SetStringSplit_not_secret self _ _ n hSec (fun h => h78 h.1)

/-- A public operation keeps the property that the object does not hold the secret extended
key prefix with 74 data bytes. -/
theorem step_not_secret {K : Type} (P : CChainParams) (D : Decoder) (X : ExtKeyCodec K)
    (hPub : (P.Base58Prefix .EXT_PUBLIC_KEY).length = 4)
    (hSec : (P.Base58Prefix .EXT_SECRET_KEY).length = 4)
    (hne : P.Base58Prefix .EXT_PUBLIC_KEY ≠ P.Base58Prefix .EXT_SECRET_KEY)
    (self : CBitcoinAddress) (op : Op K)
    (ih : ¬ (self.vchVersion = P.Base58Prefix .EXT_SECRET_KEY ∧ self.vchData.length = 74)) :
    ¬ ((step P D X self op).vchVersion = P.Base58Prefix .EXT_SECRET_KEY
      ∧ (step P D X self op).vchData.length = 74) := by
  have hid : ∀ (v : List Byte) (id : uint160),
      ¬ ((SetData self v id.data 20).vchVersion = P.Base58Prefix .EXT_SECRET_KEY
        ∧ (SetData self v id.data 20).vchData.length = 74) := by
    intro v id
    rw [SetData_eq self v id.data 20 id.size_eq]
    rintro ⟨_, hd⟩
    simp only [id.size_eq] at hd
    omega
  have hek : ∀ ek : K,
      ¬ ((SetExtKeyPair P X self ek).2.vchVersion = P.Base58Prefix .EXT_SECRET_KEY
        ∧ (SetExtKeyPair P X self ek).2.vchData.length = 74) := by
    intro ek
    simp only [SetExtKeyPair]
    rw [SetData_eq self _ _ 74 (X.EncodeP_length ek)]
    exact fun h => hne h.1
  cases op with
  | SetString psz n => exact SetString_not_secret P D X self psz n hPub hSec hne
  | SetKeyID id => exact hid _ id.id
  | SetScriptID id => exact hid _ id.id
  | SetKeyIDWith id t => exact hid _ id.id
  | SetExtKeyPair ek => exact hek ek
  | Set dest =>
    cases dest with
    | KeyID id => exact hid _ id.id
    | ScriptID id => exact hid _ id.id
    | ExtKeyPair ek => exact hek ek
    | NoDestination => exact ih
    | StealthAddress _ => exact ih
    | WitnessV0ScriptHash _ => exact ih
    | WitnessV0KeyHash _ => exact ih
    | WitnessUnknown _ => exact ih

/-- A valid address whose version is the 4-byte secret extended key prefix has 74 data
bytes. -/
theorem IsValid_secret_length (P : CChainParams) (self : CBitcoinAddress)
    (hSec : (P.Base58Prefix .EXT_SECRET_KEY).length = 4)
    (hv : IsValid P self = true) (hs : self.vchVersion = P.Base58Prefix .EXT_SECRET_KEY) :
    self.vchData.length = 74 := by
  unfold IsValid at hv
  rw [if_pos ⟨by rw [hs, hSec], Or.inr hs⟩] at hv
  simpa [BIP32_KEY_N_BYTES] using hv

/-- The secret branch of `Get()` is taken only by a valid address with the secret extended
key prefix. -/
theorem GetPath_extSecret (P : CChainParams) (self : CBitcoinAddress)
    (h : GetPath P self = .extSecret) :
    IsValid P self = true ∧ self.vchVersion = P.Base58Prefix .EXT_SECRET_KEY := by
  unfold GetPath at h
  split_ifs at h with h1 h2 h3 h4 h5
  exact ⟨by simpa using h1, h4⟩

/-- Claim C4: when the public and the secret extended key prefixes are distinct 4-byte
sequences, no address reachable from a default constructed one through the public
operations is both valid and versioned with the secret extended key prefix; hence `Get()`
never takes its `DecodeV` branch. -/
theorem reachable_not_valid_secret {K : Type} (P : CChainParams) (DecodeBase58Check : Decoder)
    (X : ExtKeyCodec K) (self : CBitcoinAddress)
    (hPub : (P.Base58Prefix .EXT_PUBLIC_KEY).length = 4)
    (hSec : (P.Base58Prefix .EXT_SECRET_KEY).length = 4)
    (hne : P.Base58Prefix .EXT_PUBLIC_KEY ≠ P.Base58Prefix .EXT_SECRET_KEY)
    (hr : Reachable P DecodeBase58Check X self) :
    ¬ (IsValid P self = true ∧ self.vchVersion = P.Base58Prefix .EXT_SECRET_KEY)
      ∧ GetPath P self ≠ .extSecret := by
  have inv : ¬ (self.vchVersion = P.Base58Prefix .EXT_SECRET_KEY
      ∧ self.vchData.length = 74) := by
    induction hr with
    | init =>
      rintro ⟨hv, _⟩
      rw [← hv] at hSec
      simp [CBase58Data.init] at hSec
    | step s op _ ih => exact step_not_secret P DecodeBase58Check X hPub hSec hne s op ih
  have main : ¬ (IsValid P self = true ∧ self.vchVersion = P.Base58Prefix .EXT_SECRET_KEY) :=
    fun h => inv ⟨h.2, IsValid_secret_length P self hSec h.1 h.2⟩
  exact ⟨main, fun h => main (GetPath_extSecret P self h)⟩

/-- The address read from a secret extended key text under the example profile is reachable,
and it is valid with the public prefix, not the secret one. -/
theorem reachable_not_valid_secret_witness :
    Reachable exampleParams charDecoder exampleExtKey
        (step exampleParams charDecoder exampleExtKey CBase58Data.init
          (.SetString (charEncoder secretPayload) 1))
      ∧ ¬ (IsValid exampleParams (step exampleParams charDecoder exampleExtKey
            CBase58Data.init (.SetString (charEncoder secretPayload) 1)) = true
          ∧ (step exampleParams charDecoder exampleExtKey CBase58Data.init
            (.SetString (charEncoder secretPayload) 1)).vchVersion
            = exampleParams.Base58Prefix .EXT_SECRET_KEY)
      ∧ GetPath exampleParams (step exampleParams charDecoder exampleExtKey
          CBase58Data.init (.SetString (charEncoder secretPayload) 1)) ≠ .extSecret :=
  ⟨Reachable.step _ _ Reachable.init,
    reachable_not_valid_secret exampleParams charDecoder exampleExtKey _
      (by decide) (by decide) (by decide) (Reachable.step _ _ Reachable.init)⟩

end CBitcoinAddress


/-! ## `CBase58Data::CompareTo` -/

namespace CBase58Data

/-- The comparison `operator<` of byte vectors is the lexicographic order: bytewise, unsigned,
a proper prefix first. -/
theorem vecLt_iff (a b : List Byte) :
    vecLt a b = true ↔ List.Lex (fun x y : Byte => x < y) a b := by
  induction a generalizing b with
  | nil =>
    cases b with
    | nil => simp [vecLt, List.Lex.not_nil_right]
    | cons y ys => simp [vecLt, List.Lex.nil]
  | cons x xs ih =>
    cases b with
    | nil => simp [vecLt, List.Lex.not_nil_right]
    | cons y ys =>
      unfold vecLt
      by_cases hxy : x < y
      · simp [hxy, List.Lex.rel hxy]
      · by_cases hyx : y < x
        · rw [if_neg hxy, if_pos hyx]
          constructor
          · intro h; cases h
          · intro h
            cases h with
            | cons _ => exact absurd hyx (lt_irrefl _)
            | rel h => exact absurd h hxy
        · have hEq : x = y := le_antisymm (not_lt.mp hyx) (not_lt.mp hxy)
          subst hEq
          rw [if_neg hxy, if_neg hyx, ih ys, List.Lex.cons_iff]

theorem lex_tri (a b : List Byte) :
    List.Lex (fun x y : Byte => x < y) a b ∨ a = b ∨ List.Lex (fun x y : Byte => x < y) b a :=
  (List.Lex.isTrichotomous (fun x y : Byte => x < y)).trichotomous a b

theorem lex_asymm {a b : List Byte} (h : List.Lex (fun x y : Byte => x < y) a b) :
    ¬ List.Lex (fun x y : Byte => x < y) b a :=
  (List.Lex.isAsymm (fun x y : Byte => x < y)).asymm a b h

theorem lex_irrefl (a : List Byte) : ¬ List.Lex (fun x y : Byte => x < y) a a :=
  fun h => lex_asymm h h

theorem lex_trans {a b c : List Byte} (h1 : List.Lex (fun x y : Byte => x < y) a b)
    (h2 : List.Lex (fun x y : Byte => x < y) b c) : List.Lex (fun x y : Byte => x < y) a c :=
  @IsTrans.trans _ (List.Lex (fun x y : Byte => x < y)) inferInstance a b c h1 h2

/-- The value of `CompareTo` in terms of the lexicographic order on version and data. -/
theorem CompareTo_cases (a b : CBase58Data) :
    (CompareTo a b = -1 ∧ (List.Lex (fun x y : Byte => x < y) a.vchVersion b.vchVersion
        ∨ (a.vchVersion = b.vchVersion
          ∧ List.Lex (fun x y : Byte => x < y) a.vchData b.vchData)))
    ∨ (CompareTo a b = 0 ∧ a.vchVersion = b.vchVersion ∧ a.vchData = b.vchData)
    ∨ (CompareTo a b = 1 ∧ (List.Lex (fun x y : Byte => x < y) b.vchVersion a.vchVersion
        ∨ (a.vchVersion = b.vchVersion
          ∧ List.Lex (fun x y : Byte => x < y) b.vchData a.vchData))) := by
  have irr : ∀ x : List Byte, vecLt x x = false := fun x =>
    Bool.eq_false_iff.mpr (fun h => lex_irrefl _ ((vecLt_iff _ _).mp h))
  have asy : ∀ x y : List Byte, List.Lex (fun x y : Byte => x < y) x y → vecLt y x = false :=
    fun x y hxy => Bool.eq_false_iff.mpr (fun h => lex_asymm hxy ((vecLt_iff _ _).mp h))
  unfold CompareTo
  rcases lex_tri a.vchVersion b.vchVersion with hv | hv | hv
  · left
    rw [if_pos ((vecLt_iff _ _).mpr hv)]
    exact ⟨rfl, Or.inl hv⟩
  · simp only [hv, irr, Bool.false_eq_true, if_false, true_and]
    rcases lex_tri a.vchData b.vchData with hd | hd | hd
    · left
      rw [if_pos ((vecLt_iff _ _).mpr hd)]
      exact ⟨rfl, Or.inr hd⟩
    · right; left
      simp only [hd, irr, Bool.false_eq_true, if_false, and_self]
    · right; right
      simp only [asy _ _ hd, (vecLt_iff _ _).mpr hd, Bool.false_eq_true, if_false, if_true]
      exact ⟨trivial, Or.inr hd⟩
  · right; right
    simp only [asy _ _ hv, (vecLt_iff _ _).mpr hv, Bool.false_eq_true, if_false, if_true]
    exact ⟨trivial, Or.inl hv⟩

theorem eq_iff_fields (a b : CBase58Data) :
    a = b ↔ a.vchVersion = b.vchVersion ∧ a.vchData = b.vchData := by
  cases a; cases b; simp

theorem versionThenDataLt_irrefl (a : CBase58Data) : ¬ versionThenDataLt a a := by
  rintro (h | ⟨_, h⟩) <;> exact lex_irrefl _ h

theorem versionThenDataLt_trans {a b c : CBase58Data} (h1 : versionThenDataLt a b)
    (h2 : versionThenDataLt b c) : versionThenDataLt a c := by
  rcases h1 with h1 | ⟨e1, h1⟩
  · rcases h2 with h2 | ⟨e2, _⟩
    · exact Or.inl (lex_trans h1 h2)
    · exact Or.inl (e2 ▸ h1)
  · rcases h2 with h2 | ⟨e2, h2⟩
    · exact Or.inl (e1 ▸ h2)
    · exact Or.inr ⟨e1.trans e2, lex_trans h1 h2⟩

theorem versionThenDataLt_asymm {a b : CBase58Data} (h1 : versionThenDataLt a b) :
    ¬ versionThenDataLt b a :=
  fun h2 => versionThenDataLt_irrefl a (versionThenDataLt_trans h1 h2)

/-- The three results of `CompareTo` and the three cases of the order. -/
theorem CompareTo_trichotomy (a b : CBase58Data) :
    (CompareTo a b = -1 ∧ versionThenDataLt a b)
    ∨ (CompareTo a b = 0 ∧ a = b)
    ∨ (CompareTo a b = 1 ∧ versionThenDataLt b a) := by
  rcases CompareTo_cases a b with ⟨h, hc⟩ | ⟨h, hc⟩ | ⟨h, hc⟩
  · exact Or.inl ⟨h, hc⟩
  · exact Or.inr (Or.inl ⟨h, (eq_iff_fields a b).mpr hc⟩)
  · refine Or.inr (Or.inr ⟨h, ?_⟩)
    rcases hc with hc | ⟨e, hc⟩
    · exact Or.inl hc
    · exact Or.inr ⟨e.symm, hc⟩

theorem CompareTo_eq_neg_one_iff (a b : CBase58Data) :
    CompareTo a b = -1 ↔ versionThenDataLt a b := by
  rcases CompareTo_trichotomy a b with ⟨h, hc⟩ | ⟨h, hc⟩ | ⟨h, hc⟩
  · simp [h, hc]
  · subst hc
    simp [h, versionThenDataLt_irrefl]
  · simp [h, versionThenDataLt_asymm hc]

theorem CompareTo_eq_one_iff (a b : CBase58Data) :
    CompareTo a b = 1 ↔ versionThenDataLt b a := by
  rcases CompareTo_trichotomy a b with ⟨h, hc⟩ | ⟨h, hc⟩ | ⟨h, hc⟩
  · simp [h, versionThenDataLt_asymm hc]
  · subst hc
    simp [h, versionThenDataLt_irrefl]
  · simp [h, hc]

theorem CompareTo_eq_zero_iff (a b : CBase58Data) : CompareTo a b = 0 ↔ a = b := by
  rcases CompareTo_trichotomy a b with ⟨h, hc⟩ | ⟨h, hc⟩ | ⟨h, hc⟩
  · simp only [h]
    constructor
    · intro h0; omega
    · intro e; subst e; exact absurd hc (versionThenDataLt_irrefl _)
  · exact ⟨fun _ => hc, fun _ => h⟩
  · simp only [h]
    constructor
    · intro h0; omega
    · intro e; subst e; exact absurd hc (versionThenDataLt_irrefl _)

theorem opLe_iff (a b : CBase58Data) : opLe a b = true ↔ versionThenDataLt a b ∨ a = b := by
  unfold opLe
  rw [decide_eq_true_iff]
  rcases CompareTo_trichotomy a b with ⟨h, hc⟩ | ⟨h, hc⟩ | ⟨h, hc⟩
  · simp [h, hc]
  · exact ⟨fun _ => Or.inr hc, fun _ => by omega⟩
  · rw [h]
    constructor
    · intro h0; omega
    · rintro (hl | e)
      · exact absurd hl (versionThenDataLt_asymm hc)
      · subst e; exact absurd hc (versionThenDataLt_irrefl _)

/-- Claim C8: `CompareTo` orders first by version, then by data: it is -1 exactly when the
version of `a` is lexicographically less than that of `b`, or the versions are equal and the
data of `a` are lexicographically less; it is 1 exactly in the mirrored cases; it is 0
exactly when versions and data are equal.  The result is one of -1, 0, 1, and `operator==`
holds exactly when version and data are both equal. -/
theorem CompareTo_version_then_data (a b : CBase58Data) :
    (CompareTo a b = -1 ↔
      (List.Lex (fun x y : Byte => x < y) a.vchVersion b.vchVersion
        ∨ (a.vchVersion = b.vchVersion
          ∧ List.Lex (fun x y : Byte => x < y) a.vchData b.vchData)))
    ∧ (CompareTo a b = 1 ↔
      (List.Lex (fun x y : Byte => x < y) b.vchVersion a.vchVersion
        ∨ (a.vchVersion = b.vchVersion
          ∧ List.Lex (fun x y : Byte => x < y) b.vchData a.vchData)))
    ∧ (CompareTo a b = 0 ↔ (a.vchVersion = b.vchVersion ∧ a.vchData = b.vchData))
    ∧ (CompareTo a b = -1 ∨ CompareTo a b = 0 ∨ CompareTo a b = 1)
    ∧ (opEq a b = true ↔ (a.vchVersion = b.vchVersion ∧ a.vchData = b.vchData)) := by
  refine ⟨CompareTo_eq_neg_one_iff a b, ?_, ?_, ?_, ?_⟩
  · rw [CompareTo_eq_one_iff]
    unfold versionThenDataLt
    constructor
    · rintro (h | ⟨e, h⟩)
      · exact Or.inl h
      · exact Or.inr ⟨e.symm, h⟩
    · rintro (h | ⟨e, h⟩)
      · exact Or.inl h
      · exact Or.inr ⟨e.symm, h⟩
  · rw [CompareTo_eq_zero_iff, eq_iff_fields]
  · rcases CompareTo_trichotomy a b with ⟨h, _⟩ | ⟨h, _⟩ | ⟨h, _⟩
    · exact Or.inl h
    · exact Or.inr (Or.inl h)
    · exact Or.inr (Or.inr h)
  · unfold opEq
    rw [decide_eq_true_iff, CompareTo_eq_zero_iff, eq_iff_fields]

/-- Claim C9: the comparison induced by `CompareTo` is a total order on (version, data)
pairs: `CompareTo(a, b) = -CompareTo(b, a)`, `a <= b` and `b <= a` imply `a == b` (and the
two containers are equal), `a <= b` and `b <= c` imply `a <= c`, and `a <= b` or `b <= a`. -/
theorem CompareTo_total_order (a b c : CBase58Data) :
    CompareTo a b = -CompareTo b a
    ∧ (opLe a b = true → opLe b a = true → opEq a b = true ∧ a = b)
    ∧ (opLe a b = true → opLe b c = true → opLe a c = true)
    ∧ (opLe a b = true ∨ opLe b a = true) := by
  refine ⟨?_, ?_, ?_, ?_⟩
  · rcases CompareTo_trichotomy a b with ⟨h, hc⟩ | ⟨h, hc⟩ | ⟨h, hc⟩
    · rw [h, (CompareTo_eq_one_iff b a).mpr hc]
    · rw [h, (CompareTo_eq_zero_iff b a).mpr hc.symm]; rfl
    · rw [h, (CompareTo_eq_neg_one_iff b a).mpr hc]; rfl
  · intro hab hba
    have e : a = b := by
      rcases (opLe_iff a b).mp hab with h1 | h1
      · rcases (opLe_iff b a).mp hba with h2 | h2
        · exact absurd h2 (versionThenDataLt_asymm h1)
        · exact h2.symm
      · exact h1
    refine ⟨?_, e⟩
    unfold opEq
    rw [decide_eq_true_iff, CompareTo_eq_zero_iff]
    exact e
  · intro hab hbc
    rw [opLe_iff] at hab hbc ⊢
    rcases hab with h1 | h1
    · rcases hbc with h2 | h2
      · exact Or.inl (versionThenDataLt_trans h1 h2)
      · exact Or.inl (h2 ▸ h1)
    · rcases hbc with h2 | h2
      · exact Or.inl (h1 ▸ h2)
      · exact Or.inr (h1.trans h2)
  · rw [opLe_iff, opLe_iff]
    rcases CompareTo_trichotomy a b with ⟨_, hc⟩ | ⟨_, hc⟩ | ⟨_, hc⟩
    · exact Or.inl (Or.inl hc)
    · exact Or.inl (Or.inr hc)
    · exact Or.inr (Or.inl hc)

/-! ## `CBase58Data::SetString`: the scratch buffer and the decode flag -/

/-- Claim C5, evaluated on the code: bytes of the decoded payload survive in `vchTemp` on
each of the three exits.  On the normal exit (the text `refText` with one version byte)
the last byte `0x18` of the payload is left; on the truncated exit (the same text with
`nVersionBytes = 22`) the whole payload is left; on the secret extended key exit the last
four bytes of the 78-byte payload are left. -/
theorem SetString_vchTemp_not_erased :
    (SetString exampleParams refDecoder exampleExtKey init refText 1).ret = true
    ∧ (SetString exampleParams refDecoder exampleExtKey init refText 1).vchTemp
        = List.replicate 20 0 ++ [0x18]
    ∧ (SetString exampleParams refDecoder exampleExtKey init refText 22).ret = false
    ∧ (SetString exampleParams refDecoder exampleExtKey init refText 22).vchTemp = refPayload
    ∧ (SetString exampleParams charDecoder exampleExtKey init
        (charEncoder secretPayload) 1).vchTemp = List.replicate 74 0 ++ [1, 2, 3, 4] := by
  refine ⟨by decide, by decide, by decide, by decide, ?_⟩
  rw [SetString_of_secret exampleParams charDecoder exampleExtKey init _ 1 (by decide)
    (by decide) (by rw [charCodec_roundtrip]; decide) (by rw [charCodec_roundtrip]; decide)
    (by rw [charCodec_roundtrip]; decide), SetStringSecret_eq, charCodec_roundtrip]
  decide

/-- Claim C6, evaluated on the code: the text `0` is not base58, its checked decode fails and
leaves the buffer empty, and `SetString` with `nVersionBytes = 0` returns true. -/
theorem SetString_failed_decode_accepted :
    refDecoder badText = (false, [])
    ∧ (SetString exampleParams refDecoder exampleExtKey init badText 0).ret = true
    ∧ (SetString exampleParams refDecoder exampleExtKey init badText 0).self
        = { vchVersion := [], vchData := [] } := by
  decide

/-! ## `CBase58Data::ToString` followed by `CBase58Data::SetString` -/

/-- Claim C7 fails as stated: with a text codec that round-trips, the container
`secretContainer` (secret extended key prefix and 74 data bytes) is written by `ToString`
and read back by `SetString` with `nVersionBytes = 4` as a different container, which
holds the public prefix. -/
theorem ToString_SetString_secret_differs :
    (∀ b, charDecoder (charEncoder b) = (true, b))
    ∧ (SetString exampleParams charDecoder exampleExtKey secretContainer
        (ToString charEncoder secretContainer) secretContainer.vchVersion.length).ret = true
    ∧ (SetString exampleParams charDecoder exampleExtKey secretContainer
        (ToString charEncoder secretContainer) secretContainer.vchVersion.length).self
        ≠ secretContainer := by
  have hs : ToString charEncoder secretContainer = charEncoder secretPayload := by
    unfold ToString
    exact congrArg charEncoder (by decide)
  refine ⟨charCodec_roundtrip, ?_, ?_⟩
  · rw [hs, SetString_of_secret exampleParams charDecoder exampleExtKey _ _ _ (by decide)
      (by decide) (by rw [charCodec_roundtrip]; decide) (by rw [charCodec_roundtrip]; decide)
      (by rw [charCodec_roundtrip]; decide), SetStringSecret_eq]
  · rw [hs, SetString_of_secret exampleParams charDecoder exampleExtKey _ _ _ (by decide)
      (by decide) (by rw [charCodec_roundtrip]; decide) (by rw [charCodec_roundtrip]; decide)
      (by rw [charCodec_roundtrip]; decide), SetStringSecret_eq]
    intro h
    have hv := congrArg CBase58Data.vchVersion h
    revert hv
    decide

/-- Claim C7, amended: when the checked decode inverts the checked encode and the two
extended key prefixes are 4 bytes long, for every container state with version `v` and data
`d` such that `v ++ d` is not a 78-byte sequence that starts with the secret extended key
prefix (and not with the public one), and such that `|v| = 4` whenever `v ++ d` is a
78-byte sequence that starts with the public extended key prefix, `ToString()` is
`EncodeBase58Check(v ++ d)` and `SetString(ToString(), |v|)`, on any container, returns true
and leaves exactly version `v` and data `d`. -/
theorem ToString_SetString_roundtrip {K : Type} (P : CChainParams)
    (EncodeBase58Check : Encoder) (DecodeBase58Check : Decoder) (X : ExtKeyCodec K)
    (self other : CBase58Data)
    (hPub : (P.Base58Prefix .EXT_PUBLIC_KEY).length = 4)
    (hSec : (P.Base58Prefix .EXT_SECRET_KEY).length = 4)
    (hrt : ∀ b, DecodeBase58Check (EncodeBase58Check b) = (true, b))
    (hNotSecret : ¬ ((self.vchVersion ++ self.vchData).length = 78
      ∧ (self.vchVersion ++ self.vchData).take 4 = P.Base58Prefix .EXT_SECRET_KEY
      ∧ (self.vchVersion ++ self.vchData).take 4 ≠ P.Base58Prefix .EXT_PUBLIC_KEY))
    (hPublic : (self.vchVersion ++ self.vchData).length = 78
      → (self.vchVersion ++ self.vchData).take 4 = P.Base58Prefix .EXT_PUBLIC_KEY
      → self.vchVersion.length = 4) :
    ToString EncodeBase58Check self = EncodeBase58Check (self.vchVersion ++ self.vchData)
    ∧ (SetString P DecodeBase58Check X other (ToString EncodeBase58Check self)
        self.vchVersion.length).ret = true
    ∧ (SetString P DecodeBase58Check X other (ToString EncodeBase58Check self)
        self.vchVersion.length).self = self := by
  have hs : ToString EncodeBase58Check self
      = EncodeBase58Check (self.vchVersion ++ self.vchData) := rfl
  have hd : (DecodeBase58Check (ToString EncodeBase58Check self)).2
      = self.vchVersion ++ self.vchData := by rw [hs, hrt]
  have key : SetString P DecodeBase58Check X other (ToString EncodeBase58Check self)
      self.vchVersion.length
      = SetStringSplit other (self.vchVersion ++ self.vchData) self.vchVersion.length := by
    by_cases hpub : (self.vchVersion ++ self.vchData).length = 78
        ∧ (self.vchVersion ++ self.vchData).take 4 = P.Base58Prefix .EXT_PUBLIC_KEY
    · rw [SetString_of_public P _ X other _ _ hPub (hd ▸ hpub.1) (hd ▸ hpub.2), hd,
        hPublic hpub.1 hpub.2]
    · rw [SetString_of_other P _ X other _ _ hPub hSec ?_, hd]
      rw [hd]
      rintro ⟨h78, h | h⟩
      · exact hpub ⟨h78, h⟩
      · exact hNotSecret ⟨h78, h, fun h2 => hpub ⟨h78, h2⟩⟩
  refine ⟨hs, ?_, ?_⟩
  · rw [key, SetStringSplit_of_le _ _ _ (by simp)]
  · rw [key, SetStringSplit_of_le _ _ _ (by simp)]
    simp

/-- The address container under the example profile and the character codec: it is written
and read back unchanged. -/
theorem ToString_SetString_roundtrip_witness :
    ToString charEncoder addressContainer
        = charEncoder (addressContainer.vchVersion ++ addressContainer.vchData)
    ∧ (SetString exampleParams charDecoder exampleExtKey init
        (ToString charEncoder addressContainer) addressContainer.vchVersion.length).ret = true
    ∧ (SetString exampleParams charDecoder exampleExtKey init
        (ToString charEncoder addressContainer) addressContainer.vchVersion.length).self
        = addressContainer :=
  ToString_SetString_roundtrip exampleParams charEncoder charDecoder exampleExtKey
    addressContainer init (by decide) (by decide) charCodec_roundtrip (by decide) (by decide)

end CBase58Data

/-! ## `CBitcoinAddress::Set`: the supported destinations -/

namespace CBitcoinAddress

/-- Claim C10: `Set(dest)` returns true and stores (a) the `PUBKEY_ADDRESS` prefix and the
20 bytes of the id for a key id, (b) the `SCRIPT_ADDRESS` prefix and the 20 bytes of the id
for a script id, (c) the `EXT_PUBLIC_KEY` prefix and the 74-byte public encoding
`EncodeP(ek)` for an extended key pair `ek`, whatever `ek` holds and whatever the address
held before. -/
theorem Set_supported_destination {K : Type} (P : CChainParams) (X : ExtKeyCodec K)
    (self : CBitcoinAddress) :
    (∀ id : CKeyID,
      Set P X self (.KeyID id)
          = (true, { vchVersion := P.Base58Prefix .PUBKEY_ADDRESS, vchData := id.id.data })
        ∧ id.id.data.length = 20)
    ∧ (∀ id : CScriptID,
      Set P X self (.ScriptID id)
          = (true, { vchVersion := P.Base58Prefix .SCRIPT_ADDRESS, vchData := id.id.data })
        ∧ id.id.data.length = 20)
    ∧ (∀ ek : K,
      Set P X self (.ExtKeyPair ek)
          = (true, { vchVersion := P.Base58Prefix .EXT_PUBLIC_KEY, vchData := X.EncodeP ek })
        ∧ (X.EncodeP ek).length = 74) := by
  refine ⟨fun id => ⟨?_, id.id.size_eq⟩, fun id => ⟨?_, id.id.size_eq⟩,
    fun ek => ⟨?_, X.EncodeP_length ek⟩⟩
  · simp only [Set, SetKeyID]
    rw [CBase58Data.SetData_eq self _ _ 20 id.id.size_eq]
  · simp only [Set, SetScriptID]
    rw [CBase58Data.SetData_eq self _ _ 20 id.id.size_eq]
  · simp only [Set, SetExtKeyPair]
    rw [CBase58Data.SetData_eq self _ _ 74 (X.EncodeP_length ek)]

end CBitcoinAddress

/-! ## `CBitcoinAddress`: unsupported destinations, validity and `Get()` -/

namespace CBitcoinAddress

theorem uint160_ofData_data (h : uint160) : uint160.ofData h.data = h := by
  cases h with
  | mk data size_eq =>
    simp only [uint160.ofData, uint160.mk.injEq]
    simp [resize, List.take_of_length_le (le_of_eq size_eq), size_eq]

/-- Claim C11: for a stealth address, a no-destination, a witness-v0 script hash, a
witness-v0 key hash and an unknown witness program, `Set(dest)` returns false and leaves
version and data as they were; and `Set(dest)` returns true only for a key id, a script id
or an extended key pair. -/
theorem Set_unsupported_destination {K : Type} (P : CChainParams) (X : ExtKeyCodec K)
    (self : CBitcoinAddress) :
    (∀ sxAddr, Set P X self (.StealthAddress sxAddr) = (false, self))
    ∧ Set P X self .NoDestination = (false, self)
    ∧ (∀ scriptHash, Set P X self (.WitnessV0ScriptHash scriptHash) = (false, self))
    ∧ (∀ keyHash, Set P X self (.WitnessV0KeyHash keyHash) = (false, self))
    ∧ (∀ witUnk, Set P X self (.WitnessUnknown witUnk) = (false, self))
    ∧ (∀ dest, (Set P X self dest).1 = true →
        (∃ id, dest = .KeyID id) ∨ (∃ id, dest = .ScriptID id) ∨ (∃ ek, dest = .ExtKeyPair ek))
    := by
  refine ⟨fun _ => rfl, rfl, fun _ => rfl, fun _ => rfl, fun _ => rfl, ?_⟩
  intro dest h
  cases dest with
  | KeyID id => exact Or.inl ⟨id, rfl⟩
  | ScriptID id => exact Or.inr (Or.inl ⟨id, rfl⟩)
  | ExtKeyPair ek => exact Or.inr (Or.inr ⟨ek, rfl⟩)
  | NoDestination => simp [Set] at h
  | StealthAddress _ => simp [Set] at h
  | WitnessV0ScriptHash _ => simp [Set] at h
  | WitnessV0KeyHash _ => simp [Set] at h
  | WitnessUnknown _ => simp [Set] at h

/-- Claim C12: if the version is 4 bytes long and equals the `EXT_PUBLIC_KEY` or the
`EXT_SECRET_KEY` prefix, `IsValid()` holds iff the data length is 74; otherwise `IsValid()`
holds iff the data length is 20 and the version equals the `PUBKEY_ADDRESS` or the
`SCRIPT_ADDRESS` prefix.  A default constructed address is not valid. -/
theorem IsValid_characterisation (P : CChainParams) (self : CBitcoinAddress) :
    ((self.vchVersion.length = 4
        ∧ (self.vchVersion = P.Base58Prefix .EXT_PUBLIC_KEY
          ∨ self.vchVersion = P.Base58Prefix .EXT_SECRET_KEY)) →
      (IsValid P self = true ↔ self.vchData.length = 74))
    ∧ (¬ (self.vchVersion.length = 4
        ∧ (self.vchVersion = P.Base58Prefix .EXT_PUBLIC_KEY
          ∨ self.vchVersion = P.Base58Prefix .EXT_SECRET_KEY)) →
      (IsValid P self = true ↔
        (self.vchData.length = 20
          ∧ (self.vchVersion = P.Base58Prefix .PUBKEY_ADDRESS
            ∨ self.vchVersion = P.Base58Prefix .SCRIPT_ADDRESS))))
    ∧ IsValid P CBase58Data.init = false := by
  refine ⟨fun h => ?_, fun h => ?_, ?_⟩
  · unfold IsValid
    rw [if_pos h]
    simp [BIP32_KEY_N_BYTES]
  · unfold IsValid
    rw [if_neg h]
    simp
  · unfold IsValid
    simp [CBase58Data.init]

/-- A valid address has one of the four versions that `Get()` tests. -/
theorem IsValid_version (P : CChainParams) (self : CBitcoinAddress)
    (h : IsValid P self = true) :
    self.vchVersion = P.Base58Prefix .PUBKEY_ADDRESS
      ∨ self.vchVersion = P.Base58Prefix .SCRIPT_ADDRESS
      ∨ self.vchVersion = P.Base58Prefix .EXT_SECRET_KEY
      ∨ self.vchVersion = P.Base58Prefix .EXT_PUBLIC_KEY := by
  unfold IsValid at h
  split_ifs at h with hc
  · rcases hc.2 with h1 | h1
    · exact Or.inr (Or.inr (Or.inr h1))
    · exact Or.inr (Or.inr (Or.inl h1))
  · simp only [Bool.and_eq_true, Bool.or_eq_true, decide_eq_true_eq] at h
    rcases h.2 with h1 | h1
    · exact Or.inl h1
    · exact Or.inr (Or.inl h1)

/-- The branch of `Get()`: `invalid` exactly for an address that is not valid, and never the
final `else`. -/
theorem GetPath_cases (P : CChainParams) (self : CBitcoinAddress) :
    (GetPath P self = .invalid ↔ IsValid P self = false)
      ∧ GetPath P self ≠ .noDestination := by
  unfold GetPath
  cases hv : IsValid P self with
  | false => simp
  | true =>
    have hver := IsValid_version P self hv
    simp only [Bool.not_true, Bool.false_eq_true, if_false]
    split_ifs with h1 h2 h3 h4
    · simp
    · simp
    · simp
    · simp
    · rcases hver with h | h | h | h <;> contradiction

/-- Claim C19: `Get()` returns the no-destination value if and only if `IsValid()` is false:
a valid address carries the `PUBKEY_ADDRESS`, `SCRIPT_ADDRESS`, `EXT_SECRET_KEY` or
`EXT_PUBLIC_KEY` prefix, so `Get()` returns a key id, a script id or an extended key pair,
and its final `else` branch is never taken. -/
theorem Get_noDestination_iff {K : Type} (P : CChainParams) (X : ExtKeyCodec K)
    (self : CBitcoinAddress) :
    (Get P X self = .NoDestination ↔ IsValid P self = false)
    ∧ (IsValid P self = true →
        (self.vchVersion = P.Base58Prefix .PUBKEY_ADDRESS
          ∨ self.vchVersion = P.Base58Prefix .SCRIPT_ADDRESS
          ∨ self.vchVersion = P.Base58Prefix .EXT_SECRET_KEY
          ∨ self.vchVersion = P.Base58Prefix .EXT_PUBLIC_KEY)
        ∧ ((∃ id, Get P X self = .KeyID id) ∨ (∃ id, Get P X self = .ScriptID id)
          ∨ (∃ ek, Get P X self = .ExtKeyPair ek)))
    ∧ GetPath P self ≠ .noDestination := by
  have hc := GetPath_cases P self
  have hget : (Get P X self = .NoDestination ↔ GetPath P self = .invalid)
      ∧ (GetPath P self ≠ .invalid →
        ((∃ id, Get P X self = .KeyID id) ∨ (∃ id, Get P X self = .ScriptID id)
          ∨ (∃ ek, Get P X self = .ExtKeyPair ek))) := by
    unfold Get
    cases hp : GetPath P self with
    | invalid => simp
    | keyID => exact ⟨by simp, fun _ => Or.inl ⟨_, rfl⟩⟩
    | scriptID => exact ⟨by simp, fun _ => Or.inr (Or.inl ⟨_, rfl⟩)⟩
    | extSecret => exact ⟨by simp, fun _ => Or.inr (Or.inr ⟨_, rfl⟩)⟩
    | extPublic => exact ⟨by simp, fun _ => Or.inr (Or.inr ⟨_, rfl⟩)⟩
    | noDestination => exact absurd hp hc.2
  refine ⟨hget.1.trans hc.1, fun hv => ⟨IsValid_version P self hv, hget.2 ?_⟩, hc.2⟩
  intro hinv
  rw [hc.1.mp hinv] at hv
  exact Bool.false_ne_true hv

/-- An address with 20 data bytes and the `PUBKEY_ADDRESS` or `SCRIPT_ADDRESS` prefix is valid
when this prefix is not an extended key prefix. -/
theorem IsValid_hash (P : CChainParams) (v data : List Byte) (hd : data.length = 20)
    (hpub : v ≠ P.Base58Prefix .EXT_PUBLIC_KEY) (hsec : v ≠ P.Base58Prefix .EXT_SECRET_KEY)
    (hv : v = P.Base58Prefix .PUBKEY_ADDRESS ∨ v = P.Base58Prefix .SCRIPT_ADDRESS) :
    IsValid P { vchVersion := v, vchData := data } = true := by
  unfold IsValid
  rw [if_neg (fun h => h.2.elim hpub hsec)]
  simp only [hd, decide_True, Bool.true_and, Bool.or_eq_true, decide_eq_true_eq]
  exact hv

/-- Claim C20: when the `PUBKEY_ADDRESS` and `SCRIPT_ADDRESS` prefixes are distinct from each
other and from the extended key prefixes, `Set(CKeyID h)` followed by `Get()` returns the
key id `h` and `GetKeyID` returns true with `h`; `Set(CScriptID h)` followed by `Get()`
returns the script id `h`, `IsScript()` is true and `GetKeyID` returns false. -/
theorem Set_Get_hash_roundtrip {K : Type} (P : CChainParams) (X : ExtKeyCodec K)
    (self : CBitcoinAddress) (keyID : CKeyID)
    (h1 : P.Base58Prefix .PUBKEY_ADDRESS ≠ P.Base58Prefix .SCRIPT_ADDRESS)
    (h2 : P.Base58Prefix .PUBKEY_ADDRESS ≠ P.Base58Prefix .EXT_PUBLIC_KEY)
    (h3 : P.Base58Prefix .PUBKEY_ADDRESS ≠ P.Base58Prefix .EXT_SECRET_KEY)
    (h4 : P.Base58Prefix .SCRIPT_ADDRESS ≠ P.Base58Prefix .EXT_PUBLIC_KEY)
    (h5 : P.Base58Prefix .SCRIPT_ADDRESS ≠ P.Base58Prefix .EXT_SECRET_KEY) :
    (∀ h : CKeyID,
      (SetKeyID P self h).1 = true
        ∧ Get P X (SetKeyID P self h).2 = .KeyID h
        ∧ GetKeyID P (SetKeyID P self h).2 keyID = (true, h))
    ∧ (∀ h : CScriptID,
      (SetScriptID P self h).1 = true
        ∧ Get P X (SetScriptID P self h).2 = .ScriptID h
        ∧ IsScript P (SetScriptID P self h).2 = true
        ∧ GetKeyID P (SetScriptID P self h).2 keyID = (false, keyID)) := by
  constructor
  · intro h
    have hv := IsValid_hash P _ h.id.data h.id.size_eq h2 h3 (Or.inl rfl)
    simp only [SetKeyID]
    rw [CBase58Data.SetData_eq self _ _ 20 h.id.size_eq]
    refine ⟨trivial, ?_, ?_⟩
    · simp only [Get, GetPath, hv, Bool.not_true, Bool.false_eq_true, if_false, if_true,
        uint160_ofData_data]
    · simp only [GetKeyID, hv, Bool.not_true, ne_eq, not_true_eq_false, decide_False,
        Bool.or_self, Bool.false_eq_true, if_false, uint160_ofData_data]
  · intro h
    have hv := IsValid_hash P _ h.id.data h.id.size_eq h4 h5 (Or.inr rfl)
    simp only [SetScriptID]
    rw [CBase58Data.SetData_eq self _ _ 20 h.id.size_eq]
    refine ⟨trivial, ?_, ?_, ?_⟩
    · simp only [Get, GetPath, hv, Bool.not_true, Bool.false_eq_true, if_false, if_true,
        if_neg (Ne.symm h1), uint160_ofData_data]
    · simp only [IsScript, hv, decide_True, Bool.and_self]
    · simp only [GetKeyID, hv, Bool.not_true, ne_eq, Ne.symm h1, not_false_eq_true,
        decide_True, Bool.or_true, if_true]

end CBitcoinAddress

namespace CBitcoinAddress

/-- The key id and the script id of the example under the example profile. -/
theorem Set_Get_hash_roundtrip_witness :
    ((SetKeyID exampleParams CBase58Data.init exampleKeyID).1 = true
      ∧ Get exampleParams exampleExtKey (SetKeyID exampleParams CBase58Data.init exampleKeyID).2
        = .KeyID exampleKeyID
      ∧ GetKeyID exampleParams (SetKeyID exampleParams CBase58Data.init exampleKeyID).2
        { id := uint160.ofData [] } = (true, exampleKeyID))
    ∧ ((SetScriptID exampleParams CBase58Data.init exampleScriptID).1 = true
      ∧ Get exampleParams exampleExtKey
        (SetScriptID exampleParams CBase58Data.init exampleScriptID).2
        = .ScriptID exampleScriptID
      ∧ IsScript exampleParams (SetScriptID exampleParams CBase58Data.init exampleScriptID).2
        = true
      ∧ GetKeyID exampleParams (SetScriptID exampleParams CBase58Data.init exampleScriptID).2
        { id := uint160.ofData [] } = (false, { id := uint160.ofData [] })) :=
  ⟨(Set_Get_hash_roundtrip exampleParams exampleExtKey CBase58Data.init
      { id := uint160.ofData [] } (by decide) (by decide) (by decide) (by decide)
      (by decide)).1 exampleKeyID,
    (Set_Get_hash_roundtrip exampleParams exampleExtKey CBase58Data.init
      { id := uint160.ofData [] } (by decide) (by decide) (by decide) (by decide)
      (by decide)).2 exampleScriptID⟩

end CBitcoinAddress

/-! ## `CBitcoinSecret` -/

namespace CBitcoinSecret

/-- Claim C13: for a valid key with 32 raw bytes `s`, `SetKey` stores the `SECRET_KEY` prefix
as version and `s ++ [1]` as data when the key is flagged compressed, `s` with no extra
byte when it is not; the resulting container satisfies `CBitcoinSecret::IsValid()`. -/
theorem SetKey_encoding (P : CChainParams) (self : CBitcoinSecret) (k : CKey)
    (s : List Byte) (hs : k.keydata = s) (hlen : s.length = 32) (hv : k.IsValid = true) :
    SetKey P self k = some
        { vchVersion := P.Base58Prefix .SECRET_KEY
          vchData := if k.IsCompressed = true then s ++ [1] else s }
    ∧ IsValid P
        { vchVersion := P.Base58Prefix .SECRET_KEY
          vchData := if k.IsCompressed = true then s ++ [1] else s } = true := by
  subst hs
  constructor
  · unfold SetKey
    simp only [hv, Bool.not_true, Bool.false_eq_true, if_false, CKey.begin, CKey.size]
    rw [CBase58Data.SetData_eq self _ _ _ rfl]
    cases k.IsCompressed <;> simp
  · unfold IsValid
    cases k.IsCompressed
    · simp [hlen]
    · simp [hlen, List.getD_eq_getElem?_getD, List.getElem?_append_right]

/-- The example key, compressed: 33 data bytes ending in 1, and a valid container. -/
theorem SetKey_encoding_witness :
    SetKey exampleParams CBase58Data.init exampleKey = some
        { vchVersion := [153], vchData := List.replicate 31 0 ++ [1] ++ [1] }
    ∧ IsValid exampleParams
        { vchVersion := [153], vchData := List.replicate 31 0 ++ [1] ++ [1] } = true :=
  SetKey_encoding exampleParams CBase58Data.init exampleKey (List.replicate 31 0 ++ [1])
    rfl (by decide) rfl

/-- Claim C14: `CBitcoinSecret::SetString(text)` returns true iff the container decode
`CBase58Data::SetString(text, 1)` succeeds, the resulting version equals the `SECRET_KEY`
prefix and the resulting data have length 32, or length 33 with the 33rd byte equal to 1;
in every other case it returns false. -/
theorem SetString_secret_shape {K : Type} (P : CChainParams) (DecodeBase58Check : Decoder)
    (X : ExtKeyCodec K) (self : CBitcoinSecret) (pszSecret : List Char) :
    ((SetString P DecodeBase58Check X self pszSecret).1 = true ↔
      ((CBase58Data.SetString P DecodeBase58Check X self pszSecret 1).ret = true
        ∧ (CBase58Data.SetString P DecodeBase58Check X self pszSecret 1).self.vchVersion
            = P.Base58Prefix .SECRET_KEY
        ∧ ((CBase58Data.SetString P DecodeBase58Check X self pszSecret 1).self.vchData.length
              = 32
          ∨ ((CBase58Data.SetString P DecodeBase58Check X self pszSecret 1).self.vchData.length
              = 33
            ∧ (CBase58Data.SetString P DecodeBase58Check X self pszSecret 1).self.vchData[32]?
              = some 1))))
    ∧ (SetString P DecodeBase58Check X self pszSecret).2
        = (CBase58Data.SetString P DecodeBase58Check X self pszSecret 1).self := by
  refine ⟨?_, rfl⟩
  simp only [SetString, IsValid, Bool.and_eq_true, Bool.or_eq_true, decide_eq_true_eq]
  generalize (CBase58Data.SetString P DecodeBase58Check X self pszSecret 1) = r
  have hget : r.self.vchData.length = 33 →
      (r.self.vchData.getD 32 0 = 1 ↔ r.self.vchData[32]? = some 1) := by
    intro h33
    have hlt : 32 < r.self.vchData.length := by omega
    simp [List.getD_eq_getElem?_getD, List.getElem?_eq_getElem hlt]
  constructor
  · rintro ⟨hret, hfmt, hver⟩
    refine ⟨hret, hver, ?_⟩
    rcases hfmt with h32 | ⟨h33, hb⟩
    · exact Or.inl h32
    · exact Or.inr ⟨h33, (hget h33).mp hb⟩
  · rintro ⟨hret, hver, hfmt⟩
    refine ⟨hret, ?_, hver⟩
    rcases hfmt with h32 | ⟨h33, hb⟩
    · exact Or.inl h32
    · exact Or.inr ⟨h33, (hget h33).mpr hb⟩

end CBitcoinSecret

/-! ## `CExtKey58` -/

namespace CExtKey58

/-- The candidate kinds of `Set58`, in the order in which it tests them. -/
theorem Set58Type_eq_find (P : CChainParams) (vchBytes : List Byte)
    (hS : (P.Base58Prefix .EXT_SECRET_KEY).length = 4)
    (hP : (P.Base58Prefix .EXT_PUBLIC_KEY).length = 4)
    (hSB : (P.Base58Prefix .EXT_SECRET_KEY_BTC).length = 4)
    (hPB : (P.Base58Prefix .EXT_PUBLIC_KEY_BTC).length = 4) :
    Set58Type P vchBytes =
      [Base58Type.EXT_SECRET_KEY, .EXT_PUBLIC_KEY, .EXT_SECRET_KEY_BTC,
        .EXT_PUBLIC_KEY_BTC].find? (fun t => decide (vchBytes.take 4 = P.Base58Prefix t)) := by
  have e : ∀ t, (P.Base58Prefix t).length = 4 →
      memcmpEq vchBytes (P.Base58Prefix t) 4 = decide (vchBytes.take 4 = P.Base58Prefix t) := by
    intro t ht
    rw [Bool.eq_iff_iff, memcmpEq_iff _ _ 4 ht, decide_eq_true_iff]
  unfold Set58Type
  rw [e _ hS, e _ hP, e _ hSB, e _ hPB]
  simp only [List.find?]
  cases decide (vchBytes.take 4 = P.Base58Prefix .EXT_SECRET_KEY) <;>
  cases decide (vchBytes.take 4 = P.Base58Prefix .EXT_PUBLIC_KEY) <;>
  cases decide (vchBytes.take 4 = P.Base58Prefix .EXT_SECRET_KEY_BTC) <;>
  cases decide (vchBytes.take 4 = P.Base58Prefix .EXT_PUBLIC_KEY_BTC) <;> rfl

/-- The method `Set58` on a text that decodes to 82 bytes with a good checksum. -/
theorem Set58_of_checked (P : CChainParams) (DecodeBase58 : Decoder)
    (VerifyChecksum : List Byte → Bool) (self : CExtKey58) (base58 : List Char)
    (hok : (DecodeBase58 base58).1 = true)
    (hlen : (DecodeBase58 base58).2.length = 82)
    (hsum : VerifyChecksum (DecodeBase58 base58).2 = true) :
    Set58 P DecodeBase58 VerifyChecksum self base58 =
      match Set58Type P (DecodeBase58 base58).2 with
      | none => (4, self)
      | some type =>
        (0, { vchVersion := P.Base58Prefix type
              vchData := ((DecodeBase58 base58).2.drop 4).take 74 }) := by
  have hcopy : ∀ v, CBase58Data.SetData self v ((DecodeBase58 base58).2.drop 4) 74
      = { vchVersion := v, vchData := ((DecodeBase58 base58).2.drop 4).take 74 } := by
    intro v
    have h78 : (((DecodeBase58 base58).2.drop 4).take 74).length = 74 := by
      simp [hlen]
    have := CBase58Data.SetData_eq self v (((DecodeBase58 base58).2.drop 4).take 74) 74 h78
    simpa [CBase58Data.SetData, memcpy, List.take_take] using this
  unfold Set58
  simp only [hok, hlen, hsum, BIP32_KEY_LEN, Bool.not_true, Bool.false_eq_true, if_false,
    ne_eq, not_true_eq_false]
  cases Set58Type P (DecodeBase58 base58).2 with
  | none => rfl
  | some type => simp only [hcopy]

/-- Claim C15: `Set58` returns 1 if the plain base58 decode fails; otherwise 2 if the decoded
length differs from 82; otherwise 3 if the checksum does not verify; otherwise 4 if the
leading 4 bytes equal none of the prefixes `EXT_SECRET_KEY`, `EXT_PUBLIC_KEY`,
`EXT_SECRET_KEY_BTC`, `EXT_PUBLIC_KEY_BTC`; otherwise 0, and then the stored version is the
prefix of the first kind in that order whose prefix equals the leading 4 bytes and the
stored data are the 74 bytes [4, 78) of the decoded buffer. -/
theorem Set58_codes (P : CChainParams) (DecodeBase58 : Decoder)
    (VerifyChecksum : List Byte → Bool) (self : CExtKey58) (base58 : List Char)
    (hS : (P.Base58Prefix .EXT_SECRET_KEY).length = 4)
    (hP : (P.Base58Prefix .EXT_PUBLIC_KEY).length = 4)
    (hSB : (P.Base58Prefix .EXT_SECRET_KEY_BTC).length = 4)
    (hPB : (P.Base58Prefix .EXT_PUBLIC_KEY_BTC).length = 4) :
    ((DecodeBase58 base58).1 = false →
      (Set58 P DecodeBase58 VerifyChecksum self base58).1 = 1)
    ∧ ((DecodeBase58 base58).1 = true → (DecodeBase58 base58).2.length ≠ 82 →
      (Set58 P DecodeBase58 VerifyChecksum self base58).1 = 2)
    ∧ ((DecodeBase58 base58).1 = true → (DecodeBase58 base58).2.length = 82 →
      VerifyChecksum (DecodeBase58 base58).2 = false →
      (Set58 P DecodeBase58 VerifyChecksum self base58).1 = 3)
    ∧ ((DecodeBase58 base58).1 = true → (DecodeBase58 base58).2.length = 82 →
      VerifyChecksum (DecodeBase58 base58).2 = true →
      ((DecodeBase58 base58).2.take 4 ≠ P.Base58Prefix .EXT_SECRET_KEY
        ∧ (DecodeBase58 base58).2.take 4 ≠ P.Base58Prefix .EXT_PUBLIC_KEY
        ∧ (DecodeBase58 base58).2.take 4 ≠ P.Base58Prefix .EXT_SECRET_KEY_BTC
        ∧ (DecodeBase58 base58).2.take 4 ≠ P.Base58Prefix .EXT_PUBLIC_KEY_BTC) →
      (Set58 P DecodeBase58 VerifyChecksum self base58).1 = 4)
    ∧ ((DecodeBase58 base58).1 = true → (DecodeBase58 base58).2.length = 82 →
      VerifyChecksum (DecodeBase58 base58).2 = true →
      ∀ t, [Base58Type.EXT_SECRET_KEY, .EXT_PUBLIC_KEY, .EXT_SECRET_KEY_BTC,
          .EXT_PUBLIC_KEY_BTC].find?
          (fun t => decide ((DecodeBase58 base58).2.take 4 = P.Base58Prefix t)) = some t →
        Set58 P DecodeBase58 VerifyChecksum self base58
            = (0, { vchVersion := P.Base58Prefix t
                    vchData := ((DecodeBase58 base58).2.drop 4).take 74 })
          ∧ (((DecodeBase58 base58).2.drop 4).take 74).length = 74) := by
  refine ⟨?_, ?_, ?_, ?_, ?_⟩
  · intro hok
    simp [Set58, hok]
  · intro hok hlen
    simp [Set58, hok, hlen, BIP32_KEY_LEN]
  · intro hok hlen hsum
    simp [Set58, hok, hlen, hsum, BIP32_KEY_LEN]
  · intro hok hlen hsum hnone
    rw [Set58_of_checked P _ _ self base58 hok hlen hsum,
      Set58Type_eq_find P _ hS hP hSB hPB]
    simp [List.find?, hnone.1, hnone.2.1, hnone.2.2.1, hnone.2.2.2]
  · intro hok hlen hsum t ht
    rw [Set58_of_checked P _ _ self base58 hok hlen hsum,
      Set58Type_eq_find P _ hS hP hSB hPB, ht]
    exact ⟨rfl, by simp [hlen]⟩

/-- The text of `secretPayload` under the example profile: code 0, the secret prefix is
detected and the 74 bytes after it are stored as they are. -/
theorem Set58_codes_witness :
    Set58 exampleParams charDecoder sumVerifyChecksum CBase58Data.init
        (sumEncoder secretPayload)
      = (0, { vchVersion := exampleParams.Base58Prefix .EXT_SECRET_KEY
              vchData := ((charDecoder (sumEncoder secretPayload)).2.drop 4).take 74 })
    ∧ (((charDecoder (sumEncoder secretPayload)).2.drop 4).take 74).length = 74 :=
  (Set58_codes exampleParams charDecoder sumVerifyChecksum CBase58Data.init
    (sumEncoder secretPayload) (by decide) (by decide) (by decide) (by decide)).2.2.2.2
    (by rw [sumEncoder, charCodec_roundtrip])
    (by rw [sumEncoder, charCodec_roundtrip]; decide)
    (by rw [sumEncoder, charCodec_roundtrip]; decide)
    .EXT_SECRET_KEY
    (by rw [sumEncoder, charCodec_roundtrip]; decide)

/-- The method `SetKey` stores the prefix of `type` and the 74 bytes of the secret form for
the two secret kinds, of the public form for every other kind. -/
theorem SetKey_eq {K : Type} (P : CChainParams) (X : ExtKeyCodec K) (self : CExtKey58)
    (key : K) (type : Base58Type) :
    SetKey P X self key type =
      { vchVersion := P.Base58Prefix type
        vchData := if type = .EXT_SECRET_KEY ∨ type = .EXT_SECRET_KEY_BTC then X.EncodeV key
          else X.EncodeP key } := by
  unfold SetKey
  cases type <;>
    simp [CBase58Data.SetData_eq self _ _ 74 (X.EncodeV_length key),
      CBase58Data.SetData_eq self _ _ 74 (X.EncodeP_length key)]

/-- Claim C16: when the secret and the public extended key prefixes are distinct 4-byte
sequences and the plain base58 decode of `EncodeBase58Check(b)` yields `b` followed by a
4-byte checksum that `VerifyChecksum` accepts, for every extended key pair `k` and every
type `t` among `EXT_SECRET_KEY` and `EXT_PUBLIC_KEY`, `SetKey(k, t)`, then `ToString()`,
then `Set58` on that text returns 0 and yields the version `prefix(t)` and the same 74 data
bytes. -/
theorem SetKey_ToString_Set58_roundtrip {K : Type} (P : CChainParams)
    (EncodeBase58Check : Encoder) (DecodeBase58 : Decoder)
    (VerifyChecksum : List Byte → Bool) (X : ExtKeyCodec K) (self fresh : CExtKey58)
    (k : K) (t : Base58Type)
    (hS : (P.Base58Prefix .EXT_SECRET_KEY).length = 4)
    (hP : (P.Base58Prefix .EXT_PUBLIC_KEY).length = 4)
    (hne : P.Base58Prefix .EXT_SECRET_KEY ≠ P.Base58Prefix .EXT_PUBLIC_KEY)
    (hcodec : ∀ b, ∃ c, c.length = 4 ∧ DecodeBase58 (EncodeBase58Check b) = (true, b ++ c)
      ∧ VerifyChecksum (b ++ c) = true)
    (ht : t = .EXT_SECRET_KEY ∨ t = .EXT_PUBLIC_KEY) :
    Set58 P DecodeBase58 VerifyChecksum fresh
        (CBase58Data.ToString EncodeBase58Check (SetKey P X self k t))
      = (0, SetKey P X self k t)
    ∧ (SetKey P X self k t).vchVersion = P.Base58Prefix t
    ∧ (SetKey P X self k t).vchData.length = 74 := by
  have hdlen : (if t = .EXT_SECRET_KEY ∨ t = .EXT_SECRET_KEY_BTC then X.EncodeV k
      else X.EncodeP k).length = 74 := by
    split_ifs
    · exact X.EncodeV_length k
    · exact X.EncodeP_length k
  have hvlen : (P.Base58Prefix t).length = 4 := by
    rcases ht with h | h <;> subst h <;> assumption
  rw [SetKey_eq]
  generalize (if t = .EXT_SECRET_KEY ∨ t = .EXT_SECRET_KEY_BTC then X.EncodeV k
      else X.EncodeP k) = d at hdlen ⊢
  refine ⟨?_, rfl, hdlen⟩
  obtain ⟨c, hc, hdec, hsum⟩ := hcodec (P.Base58Prefix t ++ d)
  have htext : CBase58Data.ToString EncodeBase58Check
      { vchVersion := P.Base58Prefix t, vchData := d }
      = EncodeBase58Check (P.Base58Prefix t ++ d) := rfl
  have hbytes : (DecodeBase58 (EncodeBase58Check (P.Base58Prefix t ++ d))).2
      = P.Base58Prefix t ++ d ++ c := by rw [hdec]
  have htake : (P.Base58Prefix t ++ d ++ c).take 4 = P.Base58Prefix t := by
    rw [List.append_assoc, List.take_append_of_le_length (le_of_eq hvlen.symm),
      List.take_of_length_le (le_of_eq hvlen)]
  have hdata : ((P.Base58Prefix t ++ d ++ c).drop 4).take 74 = d := by
    rw [List.append_assoc, List.drop_append_of_le_length (le_of_eq hvlen.symm),
      List.drop_of_length_le (le_of_eq hvlen), List.nil_append,
      List.take_append_of_le_length (le_of_eq hdlen.symm),
      List.take_of_length_le (le_of_eq hdlen)]
  have htype : Set58Type P (P.Base58Prefix t ++ d ++ c) = some t := by
    unfold Set58Type
    rcases ht with h | h
    · subst h
      rw [if_pos ((memcmpEq_iff _ _ 4 hS).mpr htake)]
    · subst h
      rw [if_neg (fun hm => hne (((memcmpEq_iff _ _ 4 hS).mp hm).symm.trans htake)),
        if_pos ((memcmpEq_iff _ _ 4 hP).mpr htake)]
  rw [htext, Set58_of_checked P _ _ fresh _ (by rw [hdec])
    (by rw [hbytes]; simp [hvlen, hdlen, hc]) (by rw [hbytes]; exact hsum), hbytes, htype]
  simp only [hdata]

theorem sumCodec_checked (b : List Byte) :
    ∃ c, c.length = 4 ∧ charDecoder (sumEncoder b) = (true, b ++ c)
      ∧ sumVerifyChecksum (b ++ c) = true :=
  ⟨sumChecksum b, rfl, by rw [sumEncoder, charCodec_roundtrip], by
    have hlen : (sumChecksum b).length = 4 := rfl
    simp [sumVerifyChecksum, hlen]⟩

/-- The example key pair written with the secret prefix and read back by `Set58`: the
version stays the secret prefix. -/
theorem SetKey_ToString_Set58_roundtrip_witness :
    Set58 exampleParams charDecoder sumVerifyChecksum CBase58Data.init
        (CBase58Data.ToString sumEncoder
          (SetKey exampleParams exampleExtKey CBase58Data.init exampleKeyPair .EXT_SECRET_KEY))
      = (0, SetKey exampleParams exampleExtKey CBase58Data.init exampleKeyPair .EXT_SECRET_KEY)
    ∧ (SetKey exampleParams exampleExtKey CBase58Data.init exampleKeyPair
        .EXT_SECRET_KEY).vchVersion = exampleParams.Base58Prefix .EXT_SECRET_KEY
    ∧ (SetKey exampleParams exampleExtKey CBase58Data.init exampleKeyPair
        .EXT_SECRET_KEY).vchData.length = 74 :=
  SetKey_ToString_Set58_roundtrip exampleParams sumEncoder charDecoder sumVerifyChecksum
    exampleExtKey CBase58Data.init CBase58Data.init exampleKeyPair .EXT_SECRET_KEY
    (by decide) (by decide) (by decide) sumCodec_checked (Or.inl rfl)

/-- A key written by `SetKey` under the legacy secret kind is read by `GetKey()` in the
public form as soon as the legacy secret prefix differs from the secret prefix. -/
theorem GetKeyForm_legacy_secret {K : Type} (P : CChainParams) (X : ExtKeyCodec K)
    (self : CExtKey58) (k : K)
    (hne : P.Base58Prefix .EXT_SECRET_KEY_BTC ≠ P.Base58Prefix .EXT_SECRET_KEY) :
    GetKeyForm P (SetKey P X self k .EXT_SECRET_KEY_BTC) = .publicForm := by
  rw [SetKey_eq]
  unfold GetKeyForm
  rw [if_neg (fun h => h.elim hne hne)]

set_option maxRecDepth 20000 in
/-- Claim C17, evaluated on the code: under the example profile, whose four extended key
prefixes are pairwise distinct, `SetKey(k, EXT_SECRET_KEY_BTC)` stores the legacy secret
prefix and the secret form `EncodeV(k)`, and `GetKey()` reads these bytes in the public
form: it returns `DecodeP(EncodeV(k))`, which differs from `DecodeV(EncodeV(k))`. -/
theorem GetKey_legacy_secret_read_public :
    (SetKey exampleParams exampleExtKey CBase58Data.init exampleKeyPair
        .EXT_SECRET_KEY_BTC).vchVersion = exampleParams.Base58Prefix .EXT_SECRET_KEY_BTC
    ∧ (SetKey exampleParams exampleExtKey CBase58Data.init exampleKeyPair
        .EXT_SECRET_KEY_BTC).vchData = exampleExtKey.EncodeV exampleKeyPair
    ∧ GetKeyForm exampleParams (SetKey exampleParams exampleExtKey CBase58Data.init
        exampleKeyPair .EXT_SECRET_KEY_BTC) = .publicForm
    ∧ GetKey exampleParams exampleExtKey (SetKey exampleParams exampleExtKey
        CBase58Data.init exampleKeyPair .EXT_SECRET_KEY_BTC)
        = exampleExtKey.DecodeP (exampleExtKey.EncodeV exampleKeyPair)
    ∧ GetKey exampleParams exampleExtKey (SetKey exampleParams exampleExtKey
        CBase58Data.init exampleKeyPair .EXT_SECRET_KEY_BTC)
        ≠ exampleExtKey.DecodeV (exampleExtKey.EncodeV exampleKeyPair) := by
  decide

end CExtKey58

/-! ## The base58 engine: decoding inverts encoding -/

/-- With enough fuel the emitted remainders are the digits of the value, least significant
first. -/
theorem emitDigits_eq_digits (base : Nat) (hb : 1 < base) :
    ∀ fuel value, value ≤ fuel → emitDigits base fuel value = Nat.digits base value := by
  intro fuel
  induction fuel with
  | zero =>
    intro value h
    have h0 : value = 0 := by omega
    subst h0
    simp [emitDigits]
  | succ n ih =>
    intro value h
    unfold emitDigits
    by_cases h0 : value = 0
    · subst h0
      simp
    · rw [if_neg h0, Nat.digits_def' hb (Nat.pos_of_ne_zero h0)]
      have hdiv : value / base ≤ n := by
        have : value / base < value := Nat.div_lt_self (Nat.pos_of_ne_zero h0) hb
        omega
      rw [ih _ hdiv]

/-- Accumulating big-endian digits is `Nat.ofDigits` of the reversed list. -/
theorem foldl_reverse_eq_ofDigits (base : Nat) (L : List Nat) :
    L.reverse.foldl (fun value d => value * base + d) 0 = Nat.ofDigits base L := by
  induction L with
  | nil => rfl
  | cons d L ih =>
    rw [List.reverse_cons, List.foldl_append, ih, Nat.ofDigits_cons]
    simp only [List.foldl_cons, List.foldl_nil]
    ring

theorem bytesToNat_eq_ofDigits (vch : List Byte) :
    bytesToNat vch = Nat.ofDigits 256 ((vch.map (fun x => x.val)).reverse) := by
  rw [← foldl_reverse_eq_ofDigits, List.reverse_reverse, List.foldl_map]
  rfl

set_option maxRecDepth 100000 in
theorem digitIndex_alphabet :
    ∀ d : Fin 58, digitIndex (pszBase58.getD d.val '1') = some d.val := by
  decide

set_option maxRecDepth 100000 in
theorem alphabet_eq_one : ∀ d : Fin 58, pszBase58.getD d.val '1' = '1' → d.val = 0 := by
  decide

/-- The digits of a text made of alphabet characters are accumulated in base 58. -/
theorem accumulate58_map (ds : List Nat) (hd : ∀ d ∈ ds, d < 58) (value : Nat) :
    accumulate58 (ds.map (fun d => pszBase58.getD d '1')) value
      = some (ds.foldl (fun value d => value * 58 + d) value) := by
  induction ds generalizing value with
  | nil => rfl
  | cons d ds ih =>
    have hlt : d < 58 := hd d (List.mem_cons_self _ _)
    have hidx := digitIndex_alphabet ⟨d, hlt⟩
    simp only [List.map_cons, accumulate58, List.foldl_cons]
    rw [hidx]
    exact ih (fun x hx => hd x (List.mem_cons_of_mem _ hx)) _

/-- The minimal big-endian bytes of the value of a byte sequence that does not start with a
zero byte are this sequence. -/
theorem natToBytes_bytesToNat (vch : List Byte) (h : ∀ x ∈ vch.head?, x ≠ 0) :
    natToBytes (bytesToNat vch) = vch := by
  have hdig : Nat.digits 256 (bytesToNat vch) = (vch.map (fun x => x.val)).reverse := by
    rw [bytesToNat_eq_ofDigits]
    apply Nat.digits_ofDigits 256 (by norm_num)
    · intro l hl
      simp only [List.mem_reverse, List.mem_map] at hl
      obtain ⟨x, _, rfl⟩ := hl
      exact x.isLt
    · intro hne
      cases vch with
      | nil => simp at hne
      | cons x xs =>
        have hx : x ≠ 0 := h x (by simp)
        simp only [List.map_cons, List.reverse_cons, List.getLast_append_singleton]
        intro h0
        exact hx (Fin.ext h0)
  unfold natToBytes
  rw [emitDigits_eq_digits 256 (by norm_num) _ _ (le_refl _), hdig, ← List.map_reverse,
    List.reverse_reverse, List.map_map]
  have hid : ((fun d => (Fin.ofNat d : Byte)) ∘ fun x : Byte => x.val) = id := by
    funext x
    exact Fin.ext (Nat.mod_eq_of_lt x.isLt)
  rw [hid, List.map_id]

/-- A leading zero byte is encoded as one leading `1` character. -/
theorem EncodeBase58_zero_cons (vch : List Byte) :
    EncodeBase58 (0 :: vch) = '1' :: EncodeBase58 vch := by
  have hv : bytesToNat (0 :: vch) = bytesToNat vch := by
    simp [bytesToNat]
  have hz : leadingZeros (0 :: vch) = leadingZeros vch + 1 := by
    simp [leadingZeros]
  unfold EncodeBase58
  simp only [hv, hz, List.replicate_succ, List.cons_append]

/-- A leading `1` character is decoded as one leading zero byte. -/
theorem DecodeBase58_one_cons (psz : List Char) :
    DecodeBase58 ('1' :: psz) = (DecodeBase58 psz).map (fun vch => 0 :: vch) := by
  have hidx : digitIndex '1' = some 0 := by decide
  have hacc : accumulate58 ('1' :: psz) 0 = accumulate58 psz 0 := by
    simp [accumulate58, hidx]
  have hl : leadingOnes ('1' :: psz) = leadingOnes psz + 1 := by
    simp [leadingOnes]
  unfold DecodeBase58
  rw [hacc, hl]
  cases accumulate58 psz 0 with
  | none => rfl
  | some value => simp [List.replicate_succ]

/-- A byte sequence that starts with a non-zero byte: its text has no leading `1`, and the
text decodes to the sequence. -/
theorem DecodeBase58_EncodeBase58_nonzero (x : Byte) (xs : List Byte) (hx : x ≠ 0) :
    DecodeBase58 (EncodeBase58 (x :: xs)) = some (x :: xs)
      ∧ leadingOnes (EncodeBase58 (x :: xs)) = 0 := by
  have hbytes : natToBytes (bytesToNat (x :: xs)) = x :: xs :=
    natToBytes_bytesToNat (x :: xs) (by intro y hy; simp at hy; subst hy; exact hx)
  have hN : bytesToNat (x :: xs) ≠ 0 := by
    intro h0
    rw [h0] at hbytes
    simp [natToBytes, emitDigits] at hbytes
  have hz : leadingZeros (x :: xs) = 0 := by
    simp [leadingZeros, hx]
  have henc : EncodeBase58 (x :: xs)
      = ((Nat.digits 58 (bytesToNat (x :: xs))).reverse).map
          (fun d => pszBase58.getD d '1') := by
    unfold EncodeBase58
    simp only [hz, List.replicate_zero, List.nil_append]
    rw [emitDigits_eq_digits 58 (by norm_num) _ _ (le_refl _), List.map_reverse]
  have hlt : ∀ d ∈ (Nat.digits 58 (bytesToNat (x :: xs))).reverse, d < 58 := by
    intro d hd
    exact Nat.digits_lt_base (by norm_num) (List.mem_reverse.mp hd)
  have hacc : accumulate58 (EncodeBase58 (x :: xs)) 0 = some (bytesToNat (x :: xs)) := by
    rw [henc, accumulate58_map _ hlt, foldl_reverse_eq_ofDigits, Nat.ofDigits_digits]
  have hones : leadingOnes (EncodeBase58 (x :: xs)) = 0 := by
    have hne : Nat.digits 58 (bytesToNat (x :: xs)) ≠ [] :=
      Nat.digits_ne_nil_iff_ne_zero.mpr hN
    have hlast := Nat.getLast_digit_ne_zero 58 hN
    rw [henc]
    cases hrev : (Nat.digits 58 (bytesToNat (x :: xs))).reverse with
    | nil => exact absurd (List.reverse_eq_nil_iff.mp hrev) hne
    | cons d ds =>
      have hd58 : d < 58 := hlt d (by rw [hrev]; exact List.mem_cons_self _ _)
      have hdig : Nat.digits 58 (bytesToNat (x :: xs)) = ds.reverse ++ [d] := by
        rw [← List.reverse_reverse (Nat.digits 58 (bytesToNat (x :: xs))), hrev,
          List.reverse_cons]
      have hd0 : d ≠ 0 := by
        intro h0
        apply hlast
        simp only [hdig, List.getLast_append_singleton]
        exact h0
      have hch : pszBase58.getD d '1' ≠ '1' := fun h => hd0 (alphabet_eq_one ⟨d, hd58⟩ h)
      unfold leadingOnes
      rw [List.map_cons, List.takeWhile_cons, if_neg (by simpa using hch)]
      rfl
  refine ⟨?_, hones⟩
  unfold DecodeBase58
  rw [hacc, hones]
  simp only [hbytes, List.replicate_zero, List.nil_append]

/-- Claim C18: for every byte sequence `b`, the empty one and those with leading zero bytes
included, `DecodeBase58(EncodeBase58(b))` succeeds and returns exactly `b`, and the text
has one leading `1` character for each leading `0x00` byte of `b`. -/
theorem DecodeBase58_EncodeBase58 (b : List Byte) :
    DecodeBase58 (EncodeBase58 b) = some b
      ∧ leadingOnes (EncodeBase58 b) = leadingZeros b := by
  induction b with
  | nil => decide
  | cons x xs ih =>
    by_cases hx : x = 0
    · subst hx
      rw [EncodeBase58_zero_cons, DecodeBase58_one_cons, ih.1]
      refine ⟨rfl, ?_⟩
      have h1 : leadingOnes ('1' :: EncodeBase58 xs) = leadingOnes (EncodeBase58 xs) + 1 := by
        simp [leadingOnes]
      have h2 : leadingZeros ((0 : Byte) :: xs) = leadingZeros xs + 1 := by
        simp [leadingZeros]
      rw [h1, h2, ih.2]
    · have h := DecodeBase58_EncodeBase58_nonzero x xs hx
      refine ⟨h.1, ?_⟩
      rw [h.2]
      simp [leadingZeros, hx]

/-- The bytes `00 00 01` of the spec: the text is `112`, with two leading `1` characters, and
it decodes to the three bytes. -/
theorem EncodeBase58_leading_zero_example :
    EncodeBase58 [0, 0, 1] = "112".toList ∧ DecodeBase58 "112".toList = some [0, 0, 1] := by
  decide

/-! ## `CExtKey58::Set58`: a failure leaves the object as it was -/

namespace CExtKey58

/-- Claim C21: on every text for which `Set58` returns a non-zero code (1, 2, 3 or 4), the
version and the data of the container are what they were before the call; they are
modified only when `Set58` returns 0. -/
theorem Set58_atomic (P : CChainParams) (DecodeBase58 : Decoder)
    (VerifyChecksum : List Byte → Bool) (self : CExtKey58) (base58 : List Char) :
    ((Set58 P DecodeBase58 VerifyChecksum self base58).1 ≠ 0 →
      (Set58 P DecodeBase58 VerifyChecksum self base58).2 = self)
    ∧ ((Set58 P DecodeBase58 VerifyChecksum self base58).2 ≠ self →
      (Set58 P DecodeBase58 VerifyChecksum self base58).1 = 0)
    ∧ ((Set58 P DecodeBase58 VerifyChecksum self base58).1 = 0
      ∨ (Set58 P DecodeBase58 VerifyChecksum self base58).1 = 1
      ∨ (Set58 P DecodeBase58 VerifyChecksum self base58).1 = 2
      ∨ (Set58 P DecodeBase58 VerifyChecksum self base58).1 = 3
      ∨ (Set58 P DecodeBase58 VerifyChecksum self base58).1 = 4) := by
  unfold Set58
  by_cases h1 : (DecodeBase58 base58).1 = true
  · by_cases h2 : (DecodeBase58 base58).2.length = BIP32_KEY_LEN
    · by_cases h3 : VerifyChecksum (DecodeBase58 base58).2 = true
      · cases h4 : Set58Type P (DecodeBase58 base58).2 with
        | none => simp [h1, h2, h3, h4]
        | some type => simp [h1, h2, h3, h4]
      · simp [h1, h2, h3]
    · simp [h1, h2]
  · simp [h1]

/-- The text `0` is not decoded by `refDecoder`: `Set58` returns 1 and the container
`secretContainer` keeps its version and data. -/
theorem Set58_atomic_witness :
    (Set58 exampleParams refDecoder sumVerifyChecksum secretContainer badText).1 = 1
    ∧ (Set58 exampleParams refDecoder sumVerifyChecksum secretContainer badText).2
        = secretContainer :=
  ⟨by decide,
    (Set58_atomic exampleParams refDecoder sumVerifyChecksum secretContainer badText).1
      (by decide)⟩

end CExtKey58

/-! ## `CBitcoinSecret`: `SetKey` followed by `GetKey` -/

namespace CBitcoinSecret

/-- The method `SetKey` on a valid key: the `SECRET_KEY` prefix, the raw bytes, and one byte 1
when the key is flagged compressed. -/
theorem SetKey_of_valid (P : CChainParams) (self : CBitcoinSecret) (k : CKey)
    (hv : k.IsValid = true) :
    SetKey P self k = some
      { vchVersion := P.Base58Prefix .SECRET_KEY
        vchData := if k.IsCompressed = true then k.keydata ++ [1] else k.keydata } := by
  unfold SetKey
  simp only [hv, Bool.not_true, Bool.false_eq_true, if_false, CKey.begin, CKey.size]
  rw [CBase58Data.SetData_eq self _ _ _ rfl]
  cases k.IsCompressed <;> simp

/-- Claim C22: for a valid key `k` with 32 raw bytes `s` and compressed flag `c`, `SetKey(k)`
followed by `GetKey()` builds the key from exactly the bytes `s`, which are `data[0..32)`,
with the compressed flag `c`; the flag is true iff the stored data are longer than 32
bytes and their 33rd byte is 1. -/
theorem SetKey_GetKey_roundtrip (P : CChainParams) (self : CBitcoinSecret) (k : CKey)
    (s : List Byte) (c : Bool) (hs : k.keydata = s) (hlen : s.length = 32)
    (hc : k.IsCompressed = c) (hv : k.IsValid = true) :
    ∃ r, SetKey P self k = some r
      ∧ r.vchData.take 32 = s
      ∧ GetKeyArgs r = (s, c)
      ∧ (c = true ↔ (32 < r.vchData.length ∧ r.vchData[32]? = some 1))
      ∧ ∀ CKeySet : List Byte → Bool → CKey, GetKey CKeySet r = CKeySet s c := by
  subst hs hc
  refine ⟨_, SetKey_of_valid P self k hv, ?_⟩
  have htake : (if k.IsCompressed = true then k.keydata ++ [1] else k.keydata).take 32
      = k.keydata := by
    cases k.IsCompressed
    · simp [List.take_of_length_le (le_of_eq hlen)]
    · simp [List.take_append_of_le_length (le_of_eq hlen.symm),
        List.take_of_length_le (le_of_eq hlen)]
  have hflag : (decide ((if k.IsCompressed = true then k.keydata ++ [1]
        else k.keydata).length > 32)
      && decide ((if k.IsCompressed = true then k.keydata ++ [1]
        else k.keydata).getD 32 0 = 1)) = k.IsCompressed := by
    cases k.IsCompressed
    · simp [hlen]
    · simp [hlen, List.getD_eq_getElem?_getD, List.getElem?_append_right]
  have hargs : GetKeyArgs
      { vchVersion := P.Base58Prefix .SECRET_KEY
        vchData := if k.IsCompressed = true then k.keydata ++ [1] else k.keydata }
      = (k.keydata, k.IsCompressed) := by
    simp only [GetKeyArgs, htake, hflag]
  refine ⟨htake, hargs, ?_, ?_⟩
  · cases k.IsCompressed
    · simp [hlen]
    · simp [hlen, List.getElem?_append_right]
  · intro CKeySet
    simp only [GetKey, hargs]

/-- The example key, compressed, written by `SetKey` and read by `GetKey()` with the example
`CKey::Set`: the same key comes back. -/
theorem SetKey_GetKey_roundtrip_witness :
    ∃ r, SetKey exampleParams CBase58Data.init exampleKey = some r
      ∧ r.vchData.take 32 = List.replicate 31 0 ++ [1]
      ∧ GetKeyArgs r = (List.replicate 31 0 ++ [1], true)
      ∧ (true = true ↔ (32 < r.vchData.length ∧ r.vchData[32]? = some 1))
      ∧ ∀ CKeySet : List Byte → Bool → CKey,
          GetKey CKeySet r = CKeySet (List.replicate 31 0 ++ [1]) true :=
  SetKey_GetKey_roundtrip exampleParams CBase58Data.init exampleKey
    (List.replicate 31 0 ++ [1]) true rfl (by decide) rfl rfl

/-- The example `CKey::Set` gives back the example key from the container that `SetKey`
built. -/
theorem GetKey_exampleKey :
    (SetKey exampleParams CBase58Data.init exampleKey).map (GetKey exampleKeySet)
      = some exampleKey := by
  decide

end CBitcoinSecret

/-! ## `CBitcoinAddress`: the reads of the data bytes are in bounds -/

namespace CBitcoinAddress

/-- A valid address has 74 data bytes and a 4-byte extended key version, or 20 data bytes and
the `PUBKEY_ADDRESS` or `SCRIPT_ADDRESS` version. -/
theorem IsValid_cases (P : CChainParams) (self : CBitcoinAddress)
    (h : IsValid P self = true) :
    (self.vchData.length = 74
      ∧ (self.vchVersion = P.Base58Prefix .EXT_PUBLIC_KEY
        ∨ self.vchVersion = P.Base58Prefix .EXT_SECRET_KEY))
    ∨ (self.vchData.length = 20
      ∧ (self.vchVersion = P.Base58Prefix .PUBKEY_ADDRESS
        ∨ self.vchVersion = P.Base58Prefix .SCRIPT_ADDRESS)) := by
  unfold IsValid at h
  split_ifs at h with hc
  · exact Or.inl ⟨by simpa [BIP32_KEY_N_BYTES] using h, hc.2⟩
  · simp only [Bool.and_eq_true, Bool.or_eq_true, decide_eq_true_eq] at h
    exact Or.inr h

/-- The check `IsValid(prefix)` passes only with 74 or 20 data bytes. -/
theorem IsValidWith_length (P : CChainParams) (self : CBitcoinAddress)
    (prefixType : Base58Type) (h : IsValidWith P self prefixType = true) :
    self.vchData.length = 74 ∨ self.vchData.length = 20 := by
  unfold IsValidWith at h
  split_ifs at h with hc
  · simp only [Bool.and_eq_true, decide_eq_true_eq, BIP32_KEY_N_BYTES] at h
    exact Or.inl h.2
  · simp only [Bool.and_eq_true, decide_eq_true_eq] at h
    exact Or.inr h.1

/-- The read made by `Get()` is in bounds. -/
theorem GetRead_inBounds (P : CChainParams) (self : CBitcoinAddress) :
    (GetRead P self).InBounds self.vchData.length := by
  unfold GetRead GetPath
  cases hv : IsValid P self with
  | false => simp [GetBranch.read, DataRead.InBounds]
  | true =>
    have hcases := IsValid_cases P self hv
    simp only [Bool.not_true, Bool.false_eq_true, if_false]
    split_ifs with h1 h2 h3 h4
    · rcases hcases with h | h <;> simp [GetBranch.read, DataRead.InBounds, h.1]
    · rcases hcases with h | h <;> simp [GetBranch.read, DataRead.InBounds, h.1]
    · rcases hcases with h | h
      · simp [GetBranch.read, DataRead.InBounds, h.1]
      · rcases h.2 with h | h <;> contradiction
    · rcases hcases with h | h
      · simp [GetBranch.read, DataRead.InBounds, h.1]
      · rcases h.2 with h | h <;> contradiction
    · simp [GetBranch.read, DataRead.InBounds]

/-- Claim C23: for every address state and every registry, whatever the prefix lengths and
collisions, each read of the data bytes made by `Get()`, `GetKeyID(keyID)` and
`GetKeyID(keyID, prefix)` is in bounds: 20 bytes are copied only out of at least 20 data
bytes, and an extended key is decoded only from exactly 74 data bytes; when the validity
check fails no byte of data is read and the output `keyID` is left unchanged. -/
theorem data_reads_in_bounds (P : CChainParams) (self : CBitcoinAddress) (keyID : CKeyID)
    (prefixType : Base58Type) :
    (GetRead P self).InBounds self.vchData.length
    ∧ (GetKeyIDRead P self).InBounds self.vchData.length
    ∧ (GetKeyIDWithRead P self prefixType).InBounds self.vchData.length
    ∧ (IsValid P self = false → GetRead P self = .noRead)
    ∧ ((IsValid P self = false ∨ self.vchVersion ≠ P.Base58Prefix .PUBKEY_ADDRESS) →
        GetKeyIDRead P self = .noRead ∧ GetKeyID P self keyID = (false, keyID))
    ∧ (IsValidWith P self prefixType = false →
        GetKeyIDWithRead P self prefixType = .noRead
          ∧ GetKeyIDWith P self keyID prefixType = (false, keyID))
    ∧ ((GetKeyID P self keyID).1 = true ↔ GetKeyIDRead P self = .copy20)
    ∧ ((GetKeyIDWith P self keyID prefixType).1 = true
        ↔ GetKeyIDWithRead P self prefixType = .copy20) := by
  refine ⟨GetRead_inBounds P self, ?_, ?_, ?_, ?_, ?_, ?_, ?_⟩
  · unfold GetKeyIDRead
    split_ifs with h
    · trivial
    · simp only [Bool.or_eq_true, Bool.not_eq_true', decide_eq_true_eq, not_or,
        Bool.not_eq_false] at h
      show 20 ≤ self.vchData.length
      rcases IsValid_cases P self h.1 with hc | hc <;> omega
  · unfold GetKeyIDWithRead
    split_ifs with h
    · trivial
    · simp only [Bool.not_eq_true', Bool.not_eq_false] at h
      show 20 ≤ self.vchData.length
      rcases IsValidWith_length P self prefixType h with hc | hc <;> omega
  · intro h
    simp [GetRead, GetPath, h, GetBranch.read]
  · intro h
    rcases h with h | h
    · simp [GetKeyIDRead, GetKeyID, h]
    · simp [GetKeyIDRead, GetKeyID, h]
  · intro h
    simp [GetKeyIDWithRead, GetKeyIDWith, h]
  · unfold GetKeyID GetKeyIDRead
    split_ifs <;> simp
  · unfold GetKeyIDWith GetKeyIDWithRead
    split_ifs <;> simp

end CBitcoinAddress

end Base58
